/-
Verification of the expense-settlement engine of the safeSplit repository.

The TypeScript source stores monetary amounts as decimal strings and computes
on them with JavaScript numbers (`parseFloat` round-trips).  This development
models that arithmetic with exact rationals (`ℚ`): every operation the source
performs (`addAmounts`, `subtractAmounts`, `multiplyAmount`, `divideAmount`,
`compareAmounts`) is the corresponding exact field operation, and the
`0.01` settlement threshold is the rational `1/100`.

JavaScript `Map` objects are modelled as association lists with JS `Map.set`
semantics (replace the value of an existing key in place, otherwise append),
which preserves the source's insertion-order iteration.
-/
import Mathlib

namespace SafeSplit

/-- The dust / settled threshold `0.01` hard-coded throughout the source. -/
def eps : ℚ := 1 / 100

/-! ## JavaScript `Map<string, number>` model -/

/-- A JS `Map` with string keys, as an insertion-ordered association list. -/
abbrev StrMap := List (String × ℚ)

/-- `Map.get`, returning `none` when the key is absent. -/
def mget : StrMap → String → Option ℚ
  | [], _ => none
  | kv :: rest, k => if kv.1 = k then some kv.2 else mget rest k

/-- `balances.get(k) || "0"` — lookup with default `0`. -/
def mgetD (m : StrMap) (k : String) : ℚ :=
  (mget m k).getD 0

/-- JS `Map.set`: replace the value at the first occurrence of the key,
otherwise append the binding at the end. -/
def mset (m : StrMap) (k : String) (v : ℚ) : StrMap :=
  match m with
  | [] => [(k, v)]
  | kv :: rest => if kv.1 = k then (k, v) :: rest else kv :: mset rest k v

/-- Sum of all values in the map (`sum(map.values())`). -/
def sumVals (m : StrMap) : ℚ :=
  (m.map (·.2)).sum

/-! ## Data model: expenses (types.ts) -/

/-- An expense, from `types.ts`.  Display-only fields (`description`,
`timestamp`, `currency`, `tabId`, `id`, `payerAddress`) are kept where a
claim needs them; `amount` is the exact rational value of the decimal
string. -/
structure Expense where
  id : String
  tabId : String
  payerInboxId : String
  payerAddress : String
  amount : ℚ
  description : String
  participantInboxIds : List String
  weights : Option (List ℚ)
  timestamp : ℕ
  currency : String
deriving DecidableEq, Repr

/-! ## Balance calculator (ledger.ts) -/

/-- Fold JS `Map.set` over a list of bindings, in order. -/
def msetAll (init : StrMap) (kvs : List (String × ℚ)) : StrMap :=
  kvs.foldl (fun d kw => mset d kw.1 kw.2) init

/-- `distributeExpense` of `ledger.ts`: distribute an expense among its
participants according to the weights (equal split when absent), as a map
`inboxId -> share` filled by `Map.set` in participant order.  The source
`throw`s when a weights array is present with the wrong length; this is
modelled by `none`. -/
def distributeExpense (e : Expense) : Option StrMap :=
  match e.weights with
  | some ws =>
    if ws.length ≠ e.participantInboxIds.length then
      none
    else
      -- weighted split: share = (amount / totalWeight) * weight
      let totalWeight := ws.sum
      some (msetAll [] ((e.participantInboxIds.zip ws).map
        (fun kw => (kw.1, e.amount / totalWeight * kw.2))))
  | none =>
    -- equal split
    let sharePerPerson := e.amount / e.participantInboxIds.length
    some (msetAll [] (e.participantInboxIds.map
      (fun inboxId => (inboxId, sharePerPerson))))

/-- One step of `calculateBalances`: credit the payer with the full amount,
then debit every participant's share. -/
def applyExpense (balances : StrMap) (e : Expense) : Option StrMap :=
  let credited := mset balances e.payerInboxId (mgetD balances e.payerInboxId + e.amount)
  (distributeExpense e).map (fun dist =>
    dist.foldl (fun b kv => mset b kv.1 (mgetD b kv.1 - kv.2)) credited)

/-- The loop of `calculateBalances` over the expense list. -/
def calcBalancesFrom (balances : StrMap) : List Expense → Option StrMap
  | [] => some balances
  | e :: es =>
    match applyExpense balances e with
    | none => none
    | some b => calcBalancesFrom b es

/-- `calculateBalances` of `ledger.ts`: net balance map of a list of
expenses.  `none` models the exception raised on a malformed weights
array. -/
def calculateBalances (expenses : List Expense) : Option StrMap :=
  calcBalancesFrom [] expenses

/-- The validity conditions claim C1 places on one expense: positive amount,
non-empty participant list, and weights (when present) positive and of
matching length. -/
def ValidExpense (e : Expense) : Prop :=
  0 < e.amount ∧ e.participantInboxIds ≠ [] ∧
    ∀ ws, e.weights = some ws →
      ws.length = e.participantInboxIds.length ∧ ∀ w ∈ ws, 0 < w

/-! ## Settlement optimizer (settlement.ts) -/

/-- A net balance entry (`Balance` of `types.ts`). -/
structure Balance where
  inboxId : String
  address : String
  netAmount : ℚ
deriving DecidableEq, Repr

/-- A debtor/creditor work item of `optimizeSettlements`: the spread
`{...balance, remaining}` object. -/
structure MatchParty where
  inboxId : String
  address : String
  remaining : ℚ
deriving DecidableEq, Repr

/-- A settlement transfer (`Settlement` of `types.ts`).  The `description`
field — a display string derived from the other fields — is omitted. -/
structure Settlement where
  fromInboxId : String
  fromAddress : String
  toAddress : String
  amount : ℚ
  currency : String
deriving DecidableEq, Repr

/-- Insert into a descending-by-`remaining` list, before the first strictly
smaller element (so that earlier elements stay before equal ones). -/
def insertDesc (p : MatchParty) : List MatchParty → List MatchParty
  | [] => [p]
  | q :: rest =>
    if q.remaining ≤ p.remaining then p :: q :: rest else q :: insertDesc p rest

/-- Stable descending sort by `remaining`.  `Array.prototype.sort` with the
comparator `(a, b) => compareAmounts(b.remaining, a.remaining)` is required
to be stable, and a stable sort under a consistent comparator has a unique
result, modelled here by stable insertion sort. -/
def sortByRemainingDesc : List MatchParty → List MatchParty
  | [] => []
  | p :: rest => insertDesc p (sortByRemainingDesc rest)

/-- The matching loop of `optimizeSettlements`: repeatedly pair the current
largest debtor with the current largest creditor, transfer
`min(debtor.remaining, creditor.remaining)`, resolve whichever side reaches
zero, and keep the transfer only when it exceeds the `0.01` dust
threshold. -/
def settleLoop (currency : String) : List MatchParty → List MatchParty → List Settlement
  | [], _ => []
  | _ :: _, [] => []
  | d :: ds, c :: cs =>
    if d.remaining ≤ c.remaining then
      -- debtor owes less than or equal to what creditor is owed
      let t := d.remaining
      let rest := settleLoop currency ds ({ c with remaining := c.remaining - t } :: cs)
      if eps < t then
        { fromInboxId := d.inboxId, fromAddress := d.address,
          toAddress := c.address, amount := t, currency := currency } :: rest
      else rest
    else
      -- debtor owes more than what creditor is owed
      let t := c.remaining
      let rest := settleLoop currency ({ d with remaining := d.remaining - t } :: ds) cs
      if eps < t then
        { fromInboxId := d.inboxId, fromAddress := d.address,
          toAddress := c.address, amount := t, currency := currency } :: rest
      else rest
termination_by ds cs => ds.length + cs.length
decreasing_by
  · simp +arith
  · simp +arith

/-- The debtor entries of `optimizeSettlements` before sorting: balances
below `-0.01`, negated into positive `remaining` amounts. -/
def rawDebtors (balances : List Balance) : List MatchParty :=
  (balances.filter (fun b => decide (b.netAmount < -eps))).map
    (fun b => { inboxId := b.inboxId, address := b.address, remaining := -b.netAmount })

/-- The creditor entries of `optimizeSettlements` before sorting: balances
above `0.01`. -/
def rawCreditors (balances : List Balance) : List MatchParty :=
  (balances.filter (fun b => decide (eps < b.netAmount))).map
    (fun b => { inboxId := b.inboxId, address := b.address, remaining := b.netAmount })

/-- The debtor work list of `optimizeSettlements`: entries below `-0.01`,
negated and sorted descending. -/
def debtorsOf (balances : List Balance) : List MatchParty :=
  sortByRemainingDesc (rawDebtors balances)

/-- The creditor work list of `optimizeSettlements`: entries above `0.01`,
sorted descending. -/
def creditorsOf (balances : List Balance) : List MatchParty :=
  sortByRemainingDesc (rawCreditors balances)

/-- `optimizeSettlements` of `settlement.ts`: greedy largest-debtor /
largest-creditor matching. -/
def optimizeSettlements (balances : List Balance) (currency : String) : List Settlement :=
  settleLoop currency (debtorsOf balances) (creditorsOf balances)

/-- Total amount a given debtor pays across a transfer list. -/
def sumFrom (id : String) : List Settlement → ℚ
  | [] => 0
  | s :: rest => (if s.fromInboxId = id then s.amount else 0) + sumFrom id rest

/-- Total amount a given address receives across a transfer list. -/
def sumTo (addr : String) : List Settlement → ℚ
  | [] => 0
  | s :: rest => (if s.toAddress = addr then s.amount else 0) + sumTo addr rest

/-- A participant's balance after every transfer is applied: a debtor's
payment moves their negative balance up towards zero, and a creditor's
receipt reduces the positive amount still owed to them. -/
def settledBalance (b : Balance) (transfers : List Settlement) : ℚ :=
  b.netAmount + sumFrom b.inboxId transfers - sumTo b.address transfers

/-- Sum of the `remaining` fields of a work list. -/
def sumRem (l : List MatchParty) : ℚ :=
  (l.map (·.remaining)).sum

/-- Sum of all transfer amounts. -/
def totalTransferred (l : List Settlement) : ℚ :=
  (l.map (·.amount)).sum

/-- Total absolute imbalance of a balance list. -/
def totalAbsImbalance (balances : List Balance) : ℚ :=
  (balances.map (fun b => |b.netAmount|)).sum

/-- Dust that the head of a work list may carry: its remaining amount when
at most `eps`, `0` otherwise (the interior of a list never carries dust). -/
def headSlack : List MatchParty → ℚ
  | [] => 0
  | p :: _ => if p.remaining ≤ eps then p.remaining else 0

/-- Concrete balances refuting claim C2 as stated: they are distinct,
beyond-threshold, and sum to zero, yet the dust rule drops two transfers of
debtor `d2`. -/
def c2CexBalances : List Balance :=
  [{ inboxId := "d1", address := "0xD1", netAmount := -10 },
   { inboxId := "d2", address := "0xD2", netAmount := -(3 / 200) },
   { inboxId := "d3", address := "0xD3", netAmount := -(3 / 250) },
   { inboxId := "c1", address := "0xC1", netAmount := 10 + 3 / 500 },
   { inboxId := "c2", address := "0xC2", netAmount := 21 / 1000 }]

/-- A single expense whose participant list repeats one inbox id: the JS
`Map` collapses the duplicate debits, breaking balance conservation. -/
def c1CexExpense : Expense :=
  { id := "e1", tabId := "t1", payerInboxId := "payer", payerAddress := "0xP",
    amount := 10, description := "dinner", participantInboxIds := ["alice", "alice"],
    weights := none, timestamp := 0, currency := "USDC" }

/-- The three-expense scenario of the specification: A pays 60, B pays 30,
C pays 15, all split equally; plus a weighted expense of 12 at 2:1:1. -/
def wExpenses : List Expense :=
  [{ id := "e1", tabId := "t1", payerInboxId := "A", payerAddress := "0xA",
     amount := 60, description := "hotel", participantInboxIds := ["A", "B", "C"],
     weights := none, timestamp := 0, currency := "USDC" },
   { id := "e2", tabId := "t1", payerInboxId := "B", payerAddress := "0xB",
     amount := 30, description := "dinner", participantInboxIds := ["A", "B", "C"],
     weights := none, timestamp := 1, currency := "USDC" },
   { id := "e3", tabId := "t1", payerInboxId := "C", payerAddress := "0xC",
     amount := 15, description := "taxi", participantInboxIds := ["A", "B", "C"],
     weights := none, timestamp := 2, currency := "USDC" },
   { id := "e4", tabId := "t1", payerInboxId := "A", payerAddress := "0xA",
     amount := 12, description := "drinks", participantInboxIds := ["A", "B", "C"],
     weights := some [2, 1, 1], timestamp := 3, currency := "USDC" }]

/-- The balance triple of the specification scenario: A is owed 25, B owes
5, C owes 20. -/
def wBalances : List Balance :=
  [{ inboxId := "A", address := "0xA", netAmount := 25 },
   { inboxId := "B", address := "0xB", netAmount := -5 },
   { inboxId := "C", address := "0xC", netAmount := -20 }]

/-! ## Atomic token amounts (settlement.ts / transaction-handler.ts) -/

/-- `parseUnits` of viem on a non-negative decimal amount: scale by
`10 ^ decimals`, rounding excess fractional digits half-up. -/
def parseUnits (amount : ℚ) (decimals : ℕ) : ℕ :=
  ⌊amount * 10 ^ decimals + 1 / 2⌋.toNat

/-- The atomic amount encoded into the ERC-20 `transfer` call data by
`prepareSettlementTransactions`: `parseUnits(settlement.amount, decimals)`.
This is the value the on-chain `Transfer` event later reports. -/
def encodedTransferAmount (amount : ℚ) (decimals : ℕ) : ℕ :=
  parseUnits amount decimals

/-- The atomic amount registered in the pending-transaction index at send
time by the multi-transaction handler:
`parseUnits(metadata.amount, decimals) / BigInt(100)` (BigInt division
truncates; the `/ 100` carries a "only for testing" TODO in the source). -/
def registeredPendingAmount (amount : ℚ) (decimals : ℕ) : ℕ :=
  parseUnits amount decimals / 100

/-! ## Pending-transaction matcher (storage.ts) -/

/-- JavaScript `String.prototype.toLowerCase` on an address string. -/
def lowerStr (s : String) : String :=
  String.mk (s.data.map Char.toLower)

/-- One pending settlement leg stored under a sender
(`pendingSettlementTx:{inboxId}`).  `amount` is the stored atomic-unit
decimal string, compared verbatim (`===`). -/
structure PendingTx where
  groupId : String
  tabId : String
  settlementId : String
  settlementTransactionId : String
  toAddress : String
  amount : String
  tokenAddress : String
deriving DecidableEq, Repr

/-- The identifiers `findAndRemovePendingTransaction` returns on a match. -/
structure PendingMatch where
  groupId : String
  tabId : String
  settlementId : String
  settlementTransactionId : String
deriving DecidableEq, Repr

/-- The matching test: recipient address case-insensitively equal AND the
atomic amount string exactly equal. -/
def txMatchesB (tx : PendingTx) (toAddress amount : String) : Bool :=
  lowerStr tx.toAddress == lowerStr toAddress && tx.amount == amount

/-- Redis `LREM key 1 value`: remove the first element equal to the value. -/
def lremFirst : List PendingTx → PendingTx → List PendingTx
  | [], _ => []
  | x :: rest, v => if x = v then rest else x :: lremFirst rest v

/-- `findAndRemovePendingTransaction` of `storage.ts`: scan the sender's
pending list in order for the first case-insensitive-address and
exact-amount match; remove it via `LREM` and return its identifiers, or
return `none` leaving the list unchanged. -/
def findAndRemovePendingTransaction (pending : List PendingTx)
    (toAddress amount : String) : Option PendingMatch × List PendingTx :=
  match pending.find? (fun tx => txMatchesB tx toAddress amount) with
  | none => (none, pending)
  | some tx =>
    (some { groupId := tx.groupId, tabId := tx.tabId,
            settlementId := tx.settlementId,
            settlementTransactionId := tx.settlementTransactionId },
     lremFirst pending tx)

/-! ## Tabs and settlement lifecycle (types.ts, storage.ts) -/

/-- Tab lifecycle states. -/
inductive TabStatus where
  | «open»
  | settlement_proposed
  | settling
  | settled
deriving DecidableEq, Repr

/-- Per-leg confirmation states. -/
inductive TxStatus where
  | pending
  | confirmed
deriving DecidableEq, Repr

/-- Settlement record states. -/
inductive SettlementStatus where
  | proposed
  | in_progress
  | completed
deriving DecidableEq, Repr

/-- One transfer leg inside a settlement record
(`SettlementTransaction`). -/
structure SettlementTransaction where
  id : String
  fromInboxId : String
  fromAddress : String
  toAddress : String
  amount : ℚ
  status : TxStatus
  txHash : Option String
  confirmedAt : Option ℕ
deriving DecidableEq, Repr

/-- A settlement attempt for a tab (`SettlementRecord`). -/
structure SettlementRecord where
  id : String
  createdAt : ℕ
  status : SettlementStatus
  transactions : List SettlementTransaction
deriving DecidableEq, Repr

/-- A tab participant. -/
structure Participant where
  inboxId : String
  address : String
deriving DecidableEq, Repr

/-- An expense tab (`ExpenseTab`). -/
structure ExpenseTab where
  id : String
  name : String
  groupId : String
  participants : List Participant
  expenses : List Expense
  createdAt : ℕ
  currency : String
  status : TabStatus
  currentSettlement : Option SettlementRecord
deriving DecidableEq, Repr

/-- Mark one leg confirmed, storing the transaction hash and confirmation
time. -/
def confirmTx (t : SettlementTransaction) (txHash : String) (now : ℕ) :
    SettlementTransaction :=
  { t with
    status := TxStatus.confirmed
    txHash := some txHash
    confirmedAt := some now }

/-- Confirm the first leg with the given id (the source mutates the result
of `Array.prototype.find`); `none` when no leg has the id. -/
def confirmFirst (txs : List SettlementTransaction) (txid txHash : String)
    (now : ℕ) : Option (List SettlementTransaction) :=
  match txs with
  | [] => none
  | t :: rest =>
    if t.id = txid then some (confirmTx t txHash now :: rest)
    else (confirmFirst rest txid txHash now).map (t :: ·)

/-- `updateSettlementTransaction` of `storage.ts`: confirm a settlement leg
and drive the settlement/tab state machine.  The stored tab is the `.ok`
payload; `.error` models the thrown exception (store unchanged). -/
def updateSettlementTransaction (tab : ExpenseTab)
    (settlementId transactionId txHash : String) (now : ℕ) :
    Except String ExpenseTab :=
  match tab.currentSettlement with
  | none => .error ("Settlement not found: " ++ settlementId)
  | some cs =>
    if cs.id ≠ settlementId then
      .error ("Settlement not found: " ++ settlementId)
    else
      match confirmFirst cs.transactions transactionId txHash now with
      | none => .error ("Transaction not found: " ++ transactionId)
      | some txs =>
        let confirmedCount := txs.countP (fun t => t.status == TxStatus.confirmed)
        if confirmedCount = txs.length then
          -- all transactions confirmed - mark as settled
          .ok { tab with
                status := TabStatus.settled
                currentSettlement := some { cs with
                                            status := SettlementStatus.completed
                                            transactions := txs } }
        else if confirmedCount = 1 ∧ tab.status = TabStatus.settlement_proposed then
          -- first confirmation with more remaining - move to settling
          .ok { tab with
                status := TabStatus.settling
                currentSettlement := some { cs with
                                            status := SettlementStatus.in_progress
                                            transactions := txs } }
        else
          .ok { tab with currentSettlement := some { cs with transactions := txs } }

/-- `deleteExpense` of `storage.ts`: drop every expense with the id; throw
(leaving the stored tab unwritten) when nothing was dropped. -/
def deleteExpense (tab : ExpenseTab) (expenseId : String) :
    Except String ExpenseTab :=
  let remaining := tab.expenses.filter (fun e => decide (e.id ≠ expenseId))
  if remaining.length = tab.expenses.length then
    .error ("Expense not found: " ++ expenseId)
  else
    .ok { tab with expenses := remaining }

/-! ## Adding an expense (tab action provider) -/

/-- `parseAmount` of `utils.ts` on an already-numeric value: reject
non-positive amounts. -/
def parseAmount (q : ℚ) : Except String ℚ :=
  if q ≤ 0 then .error "Invalid amount" else .ok q

/-- The validation-and-append tail of the provider's `addExpense`, run
against the (possibly silently reopened) stored tab `tab1`.  The first
component is the stored tab after the call, the second the outcome.
`resolvedPayer` stands for the external identity-resolution result. -/
def addExpenseValidate (tab1 : ExpenseTab) (amountArg : ℚ)
    (resolvedPayer : Option String) (description newId : String) (now : ℕ) :
    ExpenseTab × Except String Expense :=
  match parseAmount amountArg with
  | .error e => (tab1, .error e)
  | .ok amount =>
    match resolvedPayer with
    | none => (tab1, .error "Could not resolve payer identifier")
    | some payerAddress =>
      match tab1.participants.find? (fun p => p.address == lowerStr payerAddress) with
      | none => (tab1, .error "Payer is not a participant in this tab")
      | some payer =>
        let participantInboxIds := tab1.participants.map (·.inboxId)
        if participantInboxIds.length = 0 then
          (tab1, .error "No valid participants for this expense")
        else
          let expense : Expense :=
            { id := newId, tabId := tab1.id, payerInboxId := payer.inboxId,
              payerAddress := payer.address, amount := amount,
              description := description,
              participantInboxIds := participantInboxIds, weights := none,
              timestamp := now, currency := tab1.currency }
          ({ tab1 with expenses := tab1.expenses ++ [expense] }, .ok expense)

/-- The provider's `addExpense`: a tab in `settlement_proposed` is silently
reopened (status `open`, `currentSettlement` cleared, written back) before
validation; `settling`/`settled` tabs are locked. -/
def addExpenseAction (tab : ExpenseTab) (amountArg : ℚ)
    (resolvedPayer : Option String) (description newId : String) (now : ℕ) :
    ExpenseTab × Except String Expense :=
  if tab.status = TabStatus.settlement_proposed then
    addExpenseValidate
      { tab with status := TabStatus.«open», currentSettlement := none }
      amountArg resolvedPayer description newId now
  else if tab.status = TabStatus.settling ∨ tab.status = TabStatus.settled then
    (tab, .error "Cannot add expenses - tab is locked")
  else
    addExpenseValidate tab amountArg resolvedPayer description newId now

/-! ## Proposing a settlement (utils.ts prepareTabSettlement) -/

/-- Address lookup of `computeNetBalances`: the first expense paid by the
inbox id supplies the address; a participant-only appearance stops the
scan with an empty address. -/
def lookupAddress : List Expense → String → String
  | [], _ => ""
  | e :: es, inboxId =>
    if e.payerInboxId = inboxId then e.payerAddress
    else if inboxId ∈ e.participantInboxIds then ""
    else lookupAddress es inboxId

/-- `computeNetBalances` of `settlement.ts`: the balance map as a list of
`Balance` entries in map insertion order. -/
def computeNetBalances (expenses : List Expense) : Option (List Balance) :=
  (calculateBalances expenses).map (fun m =>
    m.map (fun kv =>
      { inboxId := kv.1, address := lookupAddress expenses kv.1,
        netAmount := kv.2 }))

/-- The possible outcomes of `prepareTabSettlement` (the source returns
them as strings / JSON payloads). -/
inductive SettleOutcome where
  | alreadySettling
  | alreadySettled
  | noExpenses
  | allSettled
  | proposed (record : SettlementRecord)
deriving DecidableEq, Repr

/-- The settlement record legs built from the optimizer output and the
generated transaction ids. -/
def buildSettlementTransactions (settlements : List Settlement)
    (txIds : List String) : List SettlementTransaction :=
  (settlements.zip txIds).map (fun st =>
    { id := st.2, fromInboxId := st.1.fromInboxId,
      fromAddress := st.1.fromAddress, toAddress := st.1.toAddress,
      amount := st.1.amount, status := TxStatus.pending, txHash := none,
      confirmedAt := none })

/-- The state-changing kernel of `prepareTabSettlement` of `utils.ts`
(display formatting and transaction encoding omitted): status gate, then
balance computation, the imbalance test, and — only when a real settlement
is proposed — the tab update.  The first component of the `.ok` payload is
the stored tab after the call. -/
def prepareTabSettlement (tab : ExpenseTab) (now : ℕ) (settlementId : String)
    (txIds : List String) : Except String (ExpenseTab × SettleOutcome) :=
  if tab.status = TabStatus.settling then .ok (tab, .alreadySettling)
  else if tab.status = TabStatus.settled then .ok (tab, .alreadySettled)
  else if tab.expenses = [] then .ok (tab, .noExpenses)
  else
    match computeNetBalances tab.expenses with
    | none => .error "Weights array must match participants array length"
    | some balances =>
      if ¬ balances.any (fun b => decide (eps < |b.netAmount|)) then
        .ok (tab, .allSettled)
      else
        let settlements := optimizeSettlements balances tab.currency
        if settlements = [] then .ok (tab, .allSettled)
        else
          let record : SettlementRecord :=
            { id := settlementId, createdAt := now,
              status := SettlementStatus.proposed,
              transactions := buildSettlementTransactions settlements txIds }
          .ok ({ tab with
                 currentSettlement := some record
                 status := TabStatus.settlement_proposed }, .proposed record)

/-- A concrete pending leg used to exercise the matcher. -/
def c4PendingA : PendingTx :=
  { groupId := "g1", tabId := "t1", settlementId := "s1",
    settlementTransactionId := "x1", toAddress := "0xaaa", amount := "1000",
    tokenAddress := "0xT" }

/-- A second pending leg with a different amount. -/
def c4PendingB : PendingTx :=
  { groupId := "g1", tabId := "t1", settlementId := "s1",
    settlementTransactionId := "x2", toAddress := "0xbbb", amount := "2000",
    tokenAddress := "0xT" }

/-- Two pending legs for the confirmation witness tab. -/
def c6Leg1 : SettlementTransaction :=
  { id := "leg1", fromInboxId := "B", fromAddress := "0xb", toAddress := "0xa",
    amount := 5, status := TxStatus.pending, txHash := none, confirmedAt := none }

def c6Leg2 : SettlementTransaction :=
  { id := "leg2", fromInboxId := "C", fromAddress := "0xc", toAddress := "0xa",
    amount := 20, status := TxStatus.pending, txHash := none, confirmedAt := none }

/-- The proposed two-leg settlement record of the witness tab. -/
def c6Settlement : SettlementRecord :=
  { id := "s1", createdAt := 0, status := SettlementStatus.proposed,
    transactions := [c6Leg1, c6Leg2] }

/-- A tab with a freshly proposed two-leg settlement. -/
def c6Tab : ExpenseTab :=
  { id := "tab1", name := "Trip", groupId := "g1",
    participants := [{ inboxId := "A", address := "0xa" },
                     { inboxId := "B", address := "0xb" },
                     { inboxId := "C", address := "0xc" }],
    expenses := [], createdAt := 0, currency := "USDC",
    status := TabStatus.settlement_proposed,
    currentSettlement := some c6Settlement }

/-- A proposed-settlement tab used to witness the silent-reopen behaviour,
and its settled twin for the locked case. -/
def c7Tab : ExpenseTab :=
  { id := "tab7", name := "Dinner", groupId := "g1",
    participants := [{ inboxId := "A", address := "0xa" }],
    expenses := [], createdAt := 0, currency := "USDC",
    status := TabStatus.settlement_proposed,
    currentSettlement := some c6Settlement }

def c7TabSettled : ExpenseTab :=
  { c7Tab with status := TabStatus.settled }

/-- A single expense fully paid and consumed by one participant — the
specification's "nothing to settle" scenario. -/
def c8Expense : Expense :=
  { id := "e8", tabId := "tab8", payerInboxId := "P", payerAddress := "0xp",
    amount := 100, description := "solo", participantInboxIds := ["P"],
    weights := none, timestamp := 0, currency := "USDC" }

/-- An open tab holding only the self-paid expense. -/
def c8Tab : ExpenseTab :=
  { id := "tab8", name := "Solo", groupId := "g8",
    participants := [{ inboxId := "P", address := "0xp" }],
    expenses := [c8Expense], createdAt := 0, currency := "USDC",
    status := TabStatus.«open», currentSettlement := none }

/-- The settling twin of the witness tab. -/
def c8TabSettling : ExpenseTab :=
  { c8Tab with status := TabStatus.settling }

/-- Expenses for the deletion witness tab. -/
def c10Exp1 : Expense :=
  { id := "e1", tabId := "tabX", payerInboxId := "A", payerAddress := "0xa",
    amount := 7, description := "coffee", participantInboxIds := ["A", "B"],
    weights := none, timestamp := 0, currency := "USDC" }

def c10Exp2 : Expense :=
  { id := "e2", tabId := "tabX", payerInboxId := "B", payerAddress := "0xb",
    amount := 9, description := "cake", participantInboxIds := ["A", "B"],
    weights := none, timestamp := 1, currency := "USDC" }

/-- A two-expense tab for the deletion witness. -/
def c10Tab : ExpenseTab :=
  { id := "tabX", name := "Snacks", groupId := "gX",
    participants := [{ inboxId := "A", address := "0xa" },
                     { inboxId := "B", address := "0xb" }],
    expenses := [c10Exp1, c10Exp2], createdAt := 0, currency := "USDC",
    status := TabStatus.«open», currentSettlement := none }

/-- Two beyond-threshold balances that do not sum to zero: the optimizer
can only move `min(debt, credit)`, so the transferred total cannot equal
half the absolute imbalance. -/
def c9CexBalances : List Balance :=
  [{ inboxId := "a", address := "0xA", netAmount := -5 },
   { inboxId := "b", address := "0xB", netAmount := 10 }]

/-! # Theorems -/

/-! ## Map lemmas -/

theorem sumVals_nil : sumVals [] = 0 := rfl

theorem sumVals_cons (kv : String × ℚ) (m : StrMap) :
    sumVals (kv :: m) = kv.2 + sumVals m := by
  simp [sumVals]

theorem sumVals_append (m₁ m₂ : StrMap) :
    sumVals (m₁ ++ m₂) = sumVals m₁ + sumVals m₂ := by
  simp [sumVals]

theorem mgetD_cons (kv : String × ℚ) (m : StrMap) (k : String) :
    mgetD (kv :: m) k = if kv.1 = k then kv.2 else mgetD m k := by
  by_cases h : kv.1 = k <;> simp [mgetD, mget, h]

/-- The value sum after a `Map.set`: the old value at the key (0 when absent)
is replaced by the new one. -/
theorem sumVals_mset (m : StrMap) (k : String) (v : ℚ) :
    sumVals (mset m k v) = sumVals m - mgetD m k + v := by
  induction m with
  | nil => simp [mset, sumVals, mgetD, mget]
  | cons kv rest ih =>
      by_cases h : kv.1 = k
      · simp [mset, h, sumVals_cons, mgetD_cons]
        ring
      · simp [mset, h, sumVals_cons, mgetD_cons, ih]
        ring

/-- Setting an absent key appends the binding. -/
theorem mset_of_mget_none (m : StrMap) (k : String) (v : ℚ)
    (h : mget m k = none) : mset m k v = m ++ [(k, v)] := by
  induction m with
  | nil => simp [mset]
  | cons kv rest ih =>
      by_cases hk : kv.1 = k
      · simp [mget, hk] at h
      · simp [mget, hk] at h
        simp [mset, hk, ih h]

theorem mget_append_none (m₁ m₂ : StrMap) (k : String)
    (h : mget m₁ k = none) : mget (m₁ ++ m₂) k = mget m₂ k := by
  induction m₁ with
  | nil => simp
  | cons kv rest ih =>
      by_cases hk : kv.1 = k
      · simp [mget, hk] at h
      · simp [mget, hk] at h ⊢
        exact ih h

/-- Folding `Map.set` over fresh, duplicate-free bindings appends them all. -/
theorem msetAll_eq_append (kvs : List (String × ℚ)) (init : StrMap)
    (hnd : (kvs.map (·.1)).Nodup)
    (hfresh : ∀ p ∈ kvs, mget init p.1 = none) :
    msetAll init kvs = init ++ kvs := by
  simp only [msetAll]
  induction kvs generalizing init with
  | nil => simp
  | cons kv rest ih =>
      simp only [List.foldl_cons]
      rw [mset_of_mget_none init kv.1 kv.2 (hfresh kv (by simp))]
      have hnd' : (rest.map (·.1)).Nodup := (List.nodup_cons.mp hnd).2
      have hkv : kv.1 ∉ rest.map (·.1) := (List.nodup_cons.mp hnd).1
      have hfresh' : ∀ p ∈ rest, mget (init ++ [(kv.1, kv.2)]) p.1 = none := by
        intro p hp
        rw [mget_append_none _ _ _ (hfresh p (List.mem_cons_of_mem _ hp))]
        have hne : kv.1 ≠ p.1 := by
          intro hcontra
          exact hkv (hcontra ▸ List.mem_map_of_mem (·.1) hp)
        simp [mget, hne]
      rw [ih (init ++ [(kv.1, kv.2)]) hnd' hfresh']
      simp

/-! ## Balance conservation (C1) -/

/-- A fold of `Map.set` with a value computed from each element equals the
generic binding fold over the mapped binding list. -/
theorem foldl_mset_map {α : Type} (l : List α) (key : α → String)
    (val : α → ℚ) (init : StrMap) :
    l.foldl (fun d a => mset d (key a) (val a)) init =
      (l.map (fun a => (key a, val a))).foldl (fun d kw => mset d kw.1 kw.2) init := by
  rw [List.foldl_map]

/-- Value sum of a binding list built by mapping keys and values. -/
theorem sumVals_map_pairs {α : Type} (l : List α) (key : α → String)
    (val : α → ℚ) :
    sumVals (l.map (fun a => (key a, val a))) = (l.map val).sum := by
  induction l with
  | nil => rfl
  | cons a rest ih =>
      rw [List.map_cons, sumVals_cons, List.map_cons, List.sum_cons, ih]

theorem map_fst_map_pairs {α : Type} (l : List α) (key : α → String)
    (val : α → ℚ) :
    (l.map (fun a => (key a, val a))).map (·.1) = l.map key := by
  induction l with
  | nil => rfl
  | cons a rest ih =>
      simp only [List.map_cons]
      rw [ih]

/-- On a duplicate-free participant list, `distributeExpense` succeeds and its
shares sum to the full amount (for both equal and weighted splits). -/
theorem distributeExpense_sum (e : Expense) (hval : ValidExpense e)
    (hnd : e.participantInboxIds.Nodup) :
    ∃ dist, distributeExpense e = some dist ∧ sumVals dist = e.amount := by
  obtain ⟨-, hne, hws⟩ := hval
  have hlen0 : e.participantInboxIds.length ≠ 0 :=
    fun h => hne (List.length_eq_zero.mp h)
  match hw : e.weights with
  | none =>
      refine ⟨msetAll [] (e.participantInboxIds.map
          (fun inboxId =>
            (inboxId, e.amount / (e.participantInboxIds.length : ℚ)))),
        by simp only [distributeExpense, hw], ?_⟩
      have hlenQ : (e.participantInboxIds.length : ℚ) ≠ 0 :=
        Nat.cast_ne_zero.mpr hlen0
      rw [msetAll_eq_append]
      · rw [List.nil_append, sumVals_map_pairs]
        rw [List.map_const', List.sum_replicate, nsmul_eq_mul]
        field_simp
      · rw [map_fst_map_pairs]
        simpa using hnd
      · intro p _
        simp [mget]
  | some ws =>
      obtain ⟨hlen, hpos⟩ := hws ws hw
      have hlen' : ws.length = e.participantInboxIds.length := hlen
      refine ⟨msetAll [] ((e.participantInboxIds.zip ws).map
          (fun kw => (kw.1, e.amount / ws.sum * kw.2))),
        by simp only [distributeExpense, hw]; simp [hlen'], ?_⟩
      have hWpos : 0 < ws.sum := by
        have hwne : ws ≠ [] := by
          intro hnil
          rw [hnil] at hlen'
          exact hlen0 hlen'.symm
        match ws, hwne with
        | w :: ws', _ =>
            have h1 : 0 < w := hpos w (by simp)
            have h2 : 0 ≤ ws'.sum :=
              List.sum_nonneg (fun x hx => le_of_lt (hpos x (by simp [hx])))
            simp only [List.sum_cons]
            linarith
      have hW : (ws.sum : ℚ) ≠ 0 := ne_of_gt hWpos
      rw [msetAll_eq_append]
      · rw [List.nil_append, sumVals_map_pairs]
        have hsnd : (e.participantInboxIds.zip ws).map
            (fun kw => e.amount / ws.sum * kw.2) =
            ((e.participantInboxIds.zip ws).map Prod.snd).map
              (fun w => e.amount / ws.sum * w) := by
          simp [List.map_map]
        rw [hsnd, List.map_snd_zip e.participantInboxIds ws (le_of_eq hlen'),
          List.sum_map_mul_left]
        field_simp
      · rw [map_fst_map_pairs]
        have hfst : (e.participantInboxIds.zip ws).map (fun kw => kw.1) =
            e.participantInboxIds :=
          List.map_fst_zip e.participantInboxIds ws (le_of_eq hlen'.symm)
        rw [hfst]
        exact hnd
      · intro p _
        simp [mget]

/-- Debiting a list of shares lowers the value sum by exactly their total. -/
theorem sumVals_debit_fold (l : List (String × ℚ)) (bal : StrMap) :
    sumVals (l.foldl (fun b kv => mset b kv.1 (mgetD b kv.1 - kv.2)) bal) =
      sumVals bal - (l.map (·.2)).sum := by
  induction l generalizing bal with
  | nil => simp
  | cons kv rest ih =>
      simp only [List.foldl_cons, List.map_cons, List.sum_cons]
      rw [ih, sumVals_mset]
      ring

/-- Processing one valid expense preserves the value sum of the balance map. -/
theorem applyExpense_sum (bal : StrMap) (e : Expense) (hval : ValidExpense e)
    (hnd : e.participantInboxIds.Nodup) :
    ∃ bal', applyExpense bal e = some bal' ∧ sumVals bal' = sumVals bal := by
  obtain ⟨dist, hdist, hsum⟩ := distributeExpense_sum e hval hnd
  refine ⟨dist.foldl (fun b kv => mset b kv.1 (mgetD b kv.1 - kv.2))
      (mset bal e.payerInboxId (mgetD bal e.payerInboxId + e.amount)),
    by simp [applyExpense, hdist], ?_⟩
  rw [sumVals_debit_fold, sumVals_mset]
  have : (dist.map (·.2)).sum = e.amount := hsum
  rw [this]
  ring

theorem calcBalancesFrom_sum (es : List Expense) (bal : StrMap)
    (hval : ∀ e ∈ es, ValidExpense e)
    (hnd : ∀ e ∈ es, e.participantInboxIds.Nodup) :
    ∃ m, calcBalancesFrom bal es = some m ∧ sumVals m = sumVals bal := by
  induction es generalizing bal with
  | nil => exact ⟨bal, rfl, rfl⟩
  | cons e rest ih =>
      obtain ⟨b', hb', hsum'⟩ :=
        applyExpense_sum bal e (hval e (by simp)) (hnd e (by simp))
      obtain ⟨m, hm, hsum⟩ := ih b' (fun x hx => hval x (by simp [hx]))
        (fun x hx => hnd x (by simp [hx]))
      exact ⟨m, by simp [calcBalancesFrom, hb', hm], by rw [hsum, hsum']⟩

/-- C1 (amended): for expenses with positive amounts, non-empty
**duplicate-free** participant lists, and absent-or-positive length-matching
weights, `calculateBalances` succeeds and the sum of all values of the
returned map is exactly zero — in particular zero within the `0.01`
threshold, for both equal and weighted splits. -/
theorem calculateBalances_conservation (es : List Expense)
    (hval : ∀ e ∈ es, ValidExpense e)
    (hnd : ∀ e ∈ es, e.participantInboxIds.Nodup) :
    ∃ m, calculateBalances es = some m ∧ sumVals m = 0 ∧ |sumVals m| ≤ eps := by
  obtain ⟨m, hm, hsum⟩ := calcBalancesFrom_sum es [] hval hnd
  have hz : sumVals m = 0 := by rw [hsum]; rfl
  exact ⟨m, hm, hz, by rw [hz]; norm_num [eps]⟩

/-! ## Settlement optimizer lemmas (C2, C9) -/

/-- A list of non-negative rationals with zero sum is all zeros. -/
theorem all_zero_of_sum_zero (l : List ℚ) (hnn : ∀ x ∈ l, 0 ≤ x)
    (hz : l.sum = 0) : ∀ x ∈ l, x = 0 := by
  induction l with
  | nil => simp
  | cons a rest ih =>
      have ha : 0 ≤ a := hnn a (by simp)
      have hrest : 0 ≤ rest.sum :=
        List.sum_nonneg (fun x hx => hnn x (by simp [hx]))
      simp only [List.sum_cons] at hz
      have ha0 : a = 0 := by linarith
      have hs0 : rest.sum = 0 := by linarith
      intro x hx
      rcases List.mem_cons.mp hx with h | h
      · exact h ▸ ha0
      · exact ih (fun y hy => hnn y (by simp [hy])) hs0 x h

/-- Every transfer the loop emits names a debtor from the debtor list and a
creditor address from the creditor list. -/
theorem settleLoop_mem (currency : String) :
    ∀ (n : ℕ) (ds cs : List MatchParty), ds.length + cs.length ≤ n →
      ∀ s ∈ settleLoop currency ds cs,
        s.fromInboxId ∈ ds.map (·.inboxId) ∧ s.toAddress ∈ cs.map (·.address) := by
  intro n
  induction n with
  | zero =>
      intro ds cs hlen s hs
      have hds : ds = [] := List.eq_nil_of_length_eq_zero (by omega)
      rw [hds] at hs
      simp [settleLoop] at hs
  | succ n ih =>
      intro ds cs hlen s hs
      match ds, cs with
      | [], cs => simp [settleLoop] at hs
      | d :: ds, [] => simp [settleLoop] at hs
      | d :: ds, c :: cs =>
          by_cases hcmp : d.remaining ≤ c.remaining
          · simp only [settleLoop, if_pos hcmp] at hs
            have hrec : ∀ s ∈ settleLoop currency ds
                ({ c with remaining := c.remaining - d.remaining } :: cs),
                s.fromInboxId ∈ ds.map (·.inboxId) ∧
                  s.toAddress ∈ ({ c with remaining := c.remaining - d.remaining } :: cs).map (·.address) := by
              intro s' hs'
              refine ih ds _ ?_ s' hs'
              simp at hlen ⊢
              omega
            by_cases hkeep : eps < d.remaining
            · rw [if_pos hkeep] at hs
              rcases List.mem_cons.mp hs with h | h
              · subst h
                constructor <;> simp
              · obtain ⟨h1, h2⟩ := hrec s h
                refine ⟨by simp at h1 ⊢; tauto, ?_⟩
                simpa using h2
            · rw [if_neg hkeep] at hs
              obtain ⟨h1, h2⟩ := hrec s hs
              refine ⟨by simp at h1 ⊢; tauto, ?_⟩
              simpa using h2
          · simp only [settleLoop, if_neg hcmp] at hs
            have hrec : ∀ s ∈ settleLoop currency
                ({ d with remaining := d.remaining - c.remaining } :: ds) cs,
                s.fromInboxId ∈ ({ d with remaining := d.remaining - c.remaining } :: ds).map (·.inboxId) ∧
                  s.toAddress ∈ cs.map (·.address) := by
              intro s' hs'
              refine ih _ cs ?_ s' hs'
              simp at hlen ⊢
              omega
            by_cases hkeep : eps < c.remaining
            · rw [if_pos hkeep] at hs
              rcases List.mem_cons.mp hs with h | h
              · subst h
                constructor <;> simp
              · obtain ⟨h1, h2⟩ := hrec s h
                refine ⟨by simpa using h1, by simp at h2 ⊢; tauto⟩
            · rw [if_neg hkeep] at hs
              obtain ⟨h1, h2⟩ := hrec s hs
              exact ⟨by simpa using h1, by simp at h2 ⊢; tauto⟩

/-- `sumFrom` vanishes when no transfer names the debtor. -/
theorem sumFrom_eq_zero (id : String) (l : List Settlement)
    (h : ∀ s ∈ l, s.fromInboxId ≠ id) : sumFrom id l = 0 := by
  induction l with
  | nil => rfl
  | cons s rest ih =>
      simp only [sumFrom, if_neg (h s (by simp))]
      rw [ih (fun x hx => h x (by simp [hx]))]
      ring

/-- `sumTo` vanishes when no transfer names the address. -/
theorem sumTo_eq_zero (addr : String) (l : List Settlement)
    (h : ∀ s ∈ l, s.toAddress ≠ addr) : sumTo addr l = 0 := by
  induction l with
  | nil => rfl
  | cons s rest ih =>
      simp only [sumTo, if_neg (h s (by simp))]
      rw [ih (fun x hx => h x (by simp [hx]))]
      ring

theorem eps_pos : 0 < eps := by norm_num [eps]

theorem sumRem_cons (p : MatchParty) (l : List MatchParty) :
    sumRem (p :: l) = p.remaining + sumRem l := by
  simp [sumRem]

theorem headSlack_nonneg (l : List MatchParty)
    (h0 : ∀ p ∈ l, 0 ≤ p.remaining) : 0 ≤ headSlack l := by
  match l with
  | [] => simp [headSlack]
  | p :: rest =>
      simp only [headSlack]
      split
      · exact h0 p (by simp)
      · rfl

theorem headSlack_le_eps (l : List MatchParty)
    (h0 : ∀ p ∈ l, 0 ≤ p.remaining) : headSlack l ≤ eps := by
  match l with
  | [] => simpa [headSlack] using le_of_lt eps_pos
  | p :: rest =>
      simp only [headSlack]
      split
      · assumption
      · exact le_of_lt eps_pos

theorem headSlack_eq_zero (l : List MatchParty)
    (h : ∀ p ∈ l, eps < p.remaining) : headSlack l = 0 := by
  match l with
  | [] => rfl
  | p :: rest =>
      simp only [headSlack]
      rw [if_neg (not_le.mpr (h p (by simp)))]

theorem sumFrom_append (id : String) (l₁ l₂ : List Settlement) :
    sumFrom id (l₁ ++ l₂) = sumFrom id l₁ + sumFrom id l₂ := by
  induction l₁ with
  | nil => simp [sumFrom]
  | cons s rest ih => simp only [List.cons_append, sumFrom, List.append_eq, ih]; ring

theorem sumTo_append (addr : String) (l₁ l₂ : List Settlement) :
    sumTo addr (l₁ ++ l₂) = sumTo addr l₁ + sumTo addr l₂ := by
  induction l₁ with
  | nil => simp [sumTo]
  | cons s rest ih => simp only [List.cons_append, sumTo, List.append_eq, ih]; ring

/-- Unfolding of the matching loop when the debtor is fully resolved. -/
theorem settleLoop_cons_le (currency : String) (d c : MatchParty)
    (ds cs : List MatchParty) (hcmp : d.remaining ≤ c.remaining) :
    settleLoop currency (d :: ds) (c :: cs) =
      (if eps < d.remaining then
        [{ fromInboxId := d.inboxId, fromAddress := d.address,
           toAddress := c.address, amount := d.remaining, currency := currency }]
       else []) ++
      settleLoop currency ds ({ c with remaining := c.remaining - d.remaining } :: cs) := by
  simp only [settleLoop, if_pos hcmp]
  split <;> simp

/-- Unfolding of the matching loop when the creditor is fully resolved. -/
theorem settleLoop_cons_gt (currency : String) (d c : MatchParty)
    (ds cs : List MatchParty) (hcmp : ¬ d.remaining ≤ c.remaining) :
    settleLoop currency (d :: ds) (c :: cs) =
      (if eps < c.remaining then
        [{ fromInboxId := d.inboxId, fromAddress := d.address,
           toAddress := c.address, amount := c.remaining, currency := currency }]
       else []) ++
      settleLoop currency ({ d with remaining := d.remaining - c.remaining } :: ds) cs := by
  simp only [settleLoop, if_neg hcmp]
  split <;> simp

theorem sumFrom_ite_single (k : Prop) [Decidable k] (s : Settlement)
    (l : List Settlement) (id : String) :
    sumFrom id ((if k then [s] else []) ++ l) =
      (if k then (if s.fromInboxId = id then s.amount else 0) else 0) + sumFrom id l := by
  split <;> simp [sumFrom_append, sumFrom]

theorem sumTo_ite_single (k : Prop) [Decidable k] (s : Settlement)
    (l : List Settlement) (addr : String) :
    sumTo addr ((if k then [s] else []) ++ l) =
      (if k then (if s.toAddress = addr then s.amount else 0) else 0) + sumTo addr l := by
  split <;> simp [sumTo_append, sumTo]

/-- Greedy-loop accounting: when total debt equals total credit, every work
item is non-negative, and every non-head item is above the dust threshold,
each debtor is left unpaid by at most one creditor-dust plus one final-dust
amount (`2·eps` in the interior, head dust plus `eps` at the head), and
symmetrically for creditors. -/
theorem settleLoop_bounds (currency : String) :
    ∀ (n : ℕ) (ds cs : List MatchParty), ds.length + cs.length ≤ n →
      sumRem ds = sumRem cs →
      (∀ p ∈ ds, 0 ≤ p.remaining) →
      (∀ p ∈ cs, 0 ≤ p.remaining) →
      (∀ p ∈ ds.tail, eps < p.remaining) →
      (∀ p ∈ cs.tail, eps < p.remaining) →
      ((ds.map (·.inboxId)).Nodup) →
      ((cs.map (·.address)).Nodup) →
      (∀ d ds', ds = d :: ds' →
        0 ≤ d.remaining - sumFrom d.inboxId (settleLoop currency ds cs) ∧
        d.remaining - sumFrom d.inboxId (settleLoop currency ds cs) ≤ headSlack cs + eps) ∧
      (∀ p ∈ ds.tail,
        0 ≤ p.remaining - sumFrom p.inboxId (settleLoop currency ds cs) ∧
        p.remaining - sumFrom p.inboxId (settleLoop currency ds cs) ≤ 2 * eps) ∧
      (∀ c cs', cs = c :: cs' →
        0 ≤ c.remaining - sumTo c.address (settleLoop currency ds cs) ∧
        c.remaining - sumTo c.address (settleLoop currency ds cs) ≤ headSlack ds + eps) ∧
      (∀ p ∈ cs.tail,
        0 ≤ p.remaining - sumTo p.address (settleLoop currency ds cs) ∧
        p.remaining - sumTo p.address (settleLoop currency ds cs) ≤ 2 * eps) := by
  intro n
  induction n with
  | zero =>
      intro ds cs hlen _ _ _ _ _ _ _
      have hds : ds = [] := List.eq_nil_of_length_eq_zero (by omega)
      have hcs : cs = [] := List.eq_nil_of_length_eq_zero (by omega)
      subst hds; subst hcs
      refine ⟨?_, ?_, ?_, ?_⟩ <;> simp
  | succ n ih =>
      intro ds cs hlen hsum hd0 hc0 hdt hct hndD hndC
      match ds, cs with
      | [], cs =>
          have hz : ∀ p ∈ cs, p.remaining = 0 := by
            intro p hp
            have hall := all_zero_of_sum_zero (cs.map (·.remaining))
              (by intro x hx
                  obtain ⟨q, hq, hqx⟩ := List.mem_map.mp hx
                  exact hqx ▸ hc0 q hq)
              (by simpa [sumRem] using hsum.symm)
            exact hall p.remaining (List.mem_map_of_mem _ hp)
          refine ⟨by simp, by simp, ?_, ?_⟩
          · intro c cs' hceq
            have hc : c.remaining = 0 := hz c (hceq ▸ by simp)
            simp only [settleLoop, sumTo, hc]
            constructor
            · simp
            · have := eps_pos
              simp only [headSlack]
              linarith
          · intro p hp
            have hp0 : p.remaining = 0 := hz p (List.mem_of_mem_tail hp)
            simp only [settleLoop, sumTo, hp0]
            constructor
            · simp
            · have := eps_pos
              linarith
      | d :: ds', [] =>
          have hz : ∀ p ∈ d :: ds', p.remaining = 0 := by
            intro p hp
            have hall := all_zero_of_sum_zero ((d :: ds').map (·.remaining))
              (by intro x hx
                  obtain ⟨q, hq, hqx⟩ := List.mem_map.mp hx
                  exact hqx ▸ hd0 q hq)
              (by simpa [sumRem] using hsum)
            exact hall p.remaining (List.mem_map_of_mem _ hp)
          refine ⟨?_, ?_, by simp, by simp⟩
          · intro d0 ds0 heq
            have hd : d0.remaining = 0 := hz d0 (heq ▸ by simp)
            simp only [settleLoop, sumFrom, hd]
            constructor
            · simp
            · have := eps_pos
              simp only [headSlack]
              linarith
          · intro p hp
            have hp0 : p.remaining = 0 := hz p (List.mem_of_mem_tail hp)
            simp only [settleLoop, sumFrom, hp0]
            constructor
            · simp
            · have := eps_pos
              linarith
      | d :: ds', c :: cs' =>
          have hdpos : 0 ≤ d.remaining := hd0 d (by simp)
          have hcpos : 0 ≤ c.remaining := hc0 c (by simp)
          have hdt' : ∀ p ∈ ds', eps < p.remaining := by
            intro p hp; exact hdt p (by simpa using hp)
          have hct' : ∀ p ∈ cs', eps < p.remaining := by
            intro p hp; exact hct p (by simpa using hp)
          have hndD' : ((ds'.map (·.inboxId)).Nodup) :=
            (List.nodup_cons.mp (by simpa using hndD)).2
          have hndC' : ((cs'.map (·.address)).Nodup) :=
            (List.nodup_cons.mp (by simpa using hndC)).2
          have hdNotIn : d.inboxId ∉ ds'.map (·.inboxId) :=
            (List.nodup_cons.mp (by simpa using hndD)).1
          have hcNotIn : c.address ∉ cs'.map (·.address) :=
            (List.nodup_cons.mp (by simpa using hndC)).1
          by_cases hcmp : d.remaining ≤ c.remaining
          · -- debtor resolved
            have houtEq : settleLoop currency (d :: ds') (c :: cs') =
                (if eps < d.remaining then
                  [{ fromInboxId := d.inboxId, fromAddress := d.address,
                     toAddress := c.address, amount := d.remaining,
                     currency := currency }]
                 else []) ++ settleLoop currency ds'
                  ({ c with remaining := c.remaining - d.remaining } :: cs') :=
              settleLoop_cons_le currency d c ds' cs' hcmp
            obtain ⟨ihH, ihTD, ihHC, ihTC⟩ := ih ds'
              ({ c with remaining := c.remaining - d.remaining } :: cs')
              (by simp at hlen ⊢; omega)
              (by simp only [sumRem_cons] at hsum ⊢
                  linarith)
              (fun p hp => hd0 p (by simp [hp]))
              (by intro p hp
                  rcases List.mem_cons.mp hp with h | h
                  · subst h; simp; linarith
                  · exact hc0 p (by simp [h]))
              (fun p hp => hdt' p (List.mem_of_mem_tail hp))
              (by intro p hp; simp only [List.tail_cons] at hp; exact hct' p hp)
              hndD'
              (by simpa using hndC)
            have hFromD : sumFrom d.inboxId (settleLoop currency ds'
                ({ c with remaining := c.remaining - d.remaining } :: cs')) = 0 := by
              apply sumFrom_eq_zero
              intro s hs
              have hmem := (settleLoop_mem currency
                (ds'.length + ({ c with remaining := c.remaining - d.remaining } :: cs').length)
                ds' _ le_rfl s hs).1
              intro hEq
              exact hdNotIn (hEq ▸ hmem)
            refine ⟨?_, ?_, ?_, ?_⟩
            · -- head debtor: fully resolved here
              intro d0 ds0 heq
              injection heq with h1 h2
              subst h1; subst h2
              rw [houtEq, sumFrom_ite_single]
              have hs0 : 0 ≤ headSlack (c :: cs') := headSlack_nonneg _ hc0
              have := eps_pos
              by_cases hkeep : eps < d.remaining
              · rw [if_pos hkeep, if_pos rfl, hFromD]
                constructor <;> linarith
              · rw [if_neg hkeep, hFromD]
                push_neg at hkeep
                constructor <;> linarith
            · -- interior debtors
              intro p hp
              simp only [List.tail_cons] at hp
              have hpneq : d.inboxId ≠ p.inboxId := by
                intro hEq
                exact hdNotIn (hEq ▸ List.mem_map_of_mem (·.inboxId) hp)
              have hcontrib : sumFrom p.inboxId (settleLoop currency (d :: ds') (c :: cs')) =
                  sumFrom p.inboxId (settleLoop currency ds'
                    ({ c with remaining := c.remaining - d.remaining } :: cs')) := by
                rw [houtEq, sumFrom_ite_single]
                simp only [if_neg hpneq]
                simp
              rw [hcontrib]
              obtain ⟨d2, ds'', hds'⟩ :=
                List.exists_cons_of_ne_nil (List.ne_nil_of_mem hp)
              subst hds'
              rcases List.mem_cons.mp hp with h | h
              · subst h
                obtain ⟨hb1, hb2⟩ := ihH p ds'' rfl
                have hsl : headSlack
                    ({ c with remaining := c.remaining - d.remaining } :: cs') ≤ eps := by
                  apply headSlack_le_eps
                  intro q hq
                  rcases List.mem_cons.mp hq with h | h
                  · subst h; simp; linarith
                  · exact hc0 q (by simp [h])
                exact ⟨hb1, by linarith⟩
              · exact ihTD p (by simpa using h)
            · -- head creditor: carries over with reduced remaining
              intro c0 cs0 heq
              injection heq with h1 h2
              subst h1; subst h2
              obtain ⟨hb1, hb2⟩ := ihHC
                { c with remaining := c.remaining - d.remaining } cs' rfl
              simp only at hb1 hb2
              have hslackD' : headSlack ds' = 0 := headSlack_eq_zero ds' hdt'
              rw [hslackD'] at hb2
              rw [houtEq, sumTo_ite_single]
              by_cases hkeep : eps < d.remaining
              · rw [if_pos hkeep, if_pos rfl]
                simp only [headSlack, if_neg (not_le.mpr hkeep)]
                constructor <;> linarith
              · rw [if_neg hkeep]
                push_neg at hkeep
                simp only [headSlack, if_pos hkeep]
                constructor <;> linarith
            · -- interior creditors
              intro p hp
              simp only [List.tail_cons] at hp
              have hpneq : c.address ≠ p.address := by
                intro hEq
                exact hcNotIn (hEq ▸ List.mem_map_of_mem (·.address) hp)
              have hcontrib : sumTo p.address (settleLoop currency (d :: ds') (c :: cs')) =
                  sumTo p.address (settleLoop currency ds'
                    ({ c with remaining := c.remaining - d.remaining } :: cs')) := by
                rw [houtEq, sumTo_ite_single]
                simp only [if_neg hpneq]
                simp
              rw [hcontrib]
              exact ihTC p (by simpa using hp)
          · -- creditor resolved
            have houtEq : settleLoop currency (d :: ds') (c :: cs') =
                (if eps < c.remaining then
                  [{ fromInboxId := d.inboxId, fromAddress := d.address,
                     toAddress := c.address, amount := c.remaining,
                     currency := currency }]
                 else []) ++ settleLoop currency
                  ({ d with remaining := d.remaining - c.remaining } :: ds') cs' :=
              settleLoop_cons_gt currency d c ds' cs' hcmp
            push_neg at hcmp
            obtain ⟨ihH, ihTD, ihHC, ihTC⟩ := ih
              ({ d with remaining := d.remaining - c.remaining } :: ds') cs'
              (by simp at hlen ⊢; omega)
              (by simp only [sumRem_cons] at hsum ⊢
                  linarith)
              (by intro p hp
                  rcases List.mem_cons.mp hp with h | h
                  · subst h; simp; linarith
                  · exact hd0 p (by simp [h]))
              (fun p hp => hc0 p (by simp [hp]))
              (by intro p hp; simp only [List.tail_cons] at hp; exact hdt' p hp)
              (fun p hp => hct' p (List.mem_of_mem_tail hp))
              (by simpa using hndD)
              hndC'
            have hToC : sumTo c.address (settleLoop currency
                ({ d with remaining := d.remaining - c.remaining } :: ds') cs') = 0 := by
              apply sumTo_eq_zero
              intro s hs
              have hmem := (settleLoop_mem currency
                (({ d with remaining := d.remaining - c.remaining } :: ds').length + cs'.length)
                _ cs' le_rfl s hs).2
              intro hEq
              exact hcNotIn (hEq ▸ hmem)
            refine ⟨?_, ?_, ?_, ?_⟩
            · -- head debtor: carries over with reduced remaining
              intro d0 ds0 heq
              injection heq with h1 h2
              subst h1; subst h2
              obtain ⟨hb1, hb2⟩ := ihH
                { d with remaining := d.remaining - c.remaining } ds' rfl
              simp only at hb1 hb2
              have hslackC' : headSlack cs' = 0 := headSlack_eq_zero cs' hct'
              rw [hslackC'] at hb2
              rw [houtEq, sumFrom_ite_single]
              by_cases hkeep : eps < c.remaining
              · rw [if_pos hkeep, if_pos rfl]
                simp only [headSlack, if_neg (not_le.mpr hkeep)]
                constructor <;> linarith
              · rw [if_neg hkeep]
                push_neg at hkeep
                simp only [headSlack, if_pos hkeep]
                constructor <;> linarith
            · -- interior debtors
              intro p hp
              simp only [List.tail_cons] at hp
              have hpneq : d.inboxId ≠ p.inboxId := by
                intro hEq
                exact hdNotIn (hEq ▸ List.mem_map_of_mem (·.inboxId) hp)
              have hcontrib : sumFrom p.inboxId (settleLoop currency (d :: ds') (c :: cs')) =
                  sumFrom p.inboxId (settleLoop currency
                    ({ d with remaining := d.remaining - c.remaining } :: ds') cs') := by
                rw [houtEq, sumFrom_ite_single]
                simp only [if_neg hpneq]
                simp
              rw [hcontrib]
              exact ihTD p (by simpa using hp)
            · -- head creditor: fully resolved here
              intro c0 cs0 heq
              injection heq with h1 h2
              subst h1; subst h2
              rw [houtEq, sumTo_ite_single]
              have hs0 : 0 ≤ headSlack (d :: ds') := headSlack_nonneg _ hd0
              have := eps_pos
              by_cases hkeep : eps < c.remaining
              · rw [if_pos hkeep, if_pos rfl, hToC]
                constructor <;> linarith
              · rw [if_neg hkeep, hToC]
                push_neg at hkeep
                constructor <;> linarith
            · -- interior creditors
              intro p hp
              simp only [List.tail_cons] at hp
              have hpneq : c.address ≠ p.address := by
                intro hEq
                exact hcNotIn (hEq ▸ List.mem_map_of_mem (·.address) hp)
              have hcontrib : sumTo p.address (settleLoop currency (d :: ds') (c :: cs')) =
                  sumTo p.address (settleLoop currency
                    ({ d with remaining := d.remaining - c.remaining } :: ds') cs') := by
                rw [houtEq, sumTo_ite_single]
                simp only [if_neg hpneq]
                simp
              rw [hcontrib]
              obtain ⟨c2, cs'', hcs'⟩ :=
                List.exists_cons_of_ne_nil (List.ne_nil_of_mem hp)
              subst hcs'
              rcases List.mem_cons.mp hp with h | h
              · subst h
                obtain ⟨hb1, hb2⟩ := ihHC p cs'' rfl
                have hsl : headSlack
                    ({ d with remaining := d.remaining - c.remaining } :: ds') ≤ eps := by
                  apply headSlack_le_eps
                  intro q hq
                  rcases List.mem_cons.mp hq with h | h
                  · subst h; simp; linarith
                  · exact hd0 q (by simp [h])
                exact ⟨hb1, by linarith⟩
              · exact ihTC p (by simpa using h)

theorem insertDesc_perm (p : MatchParty) (l : List MatchParty) :
    (insertDesc p l).Perm (p :: l) := by
  induction l with
  | nil => simp [insertDesc]
  | cons q rest ih =>
      simp only [insertDesc]
      split
      · exact List.Perm.refl _
      · exact (List.Perm.cons q ih).trans (List.Perm.swap p q rest)

theorem sortByRemainingDesc_perm (l : List MatchParty) :
    (sortByRemainingDesc l).Perm l := by
  induction l with
  | nil => simp [sortByRemainingDesc]
  | cons p rest ih =>
      exact ((insertDesc_perm p (sortByRemainingDesc rest)).trans
        (List.Perm.cons p ih))

theorem sumRem_perm (l₁ l₂ : List MatchParty) (h : l₁.Perm l₂) :
    sumRem l₁ = sumRem l₂ :=
  List.Perm.sum_eq (h.map (·.remaining))

theorem sum_map_add {α : Type} (l : List α) (f g : α → ℚ) :
    (l.map (fun a => f a + g a)).sum = (l.map f).sum + (l.map g).sum := by
  induction l with
  | nil => simp
  | cons a rest ih => simp [ih]; ring

theorem sum_ite_key_zero (ids : List String) (x : String) (a : ℚ)
    (hx : x ∉ ids) : (ids.map (fun i => if x = i then a else 0)).sum = 0 := by
  induction ids with
  | nil => rfl
  | cons i rest ih =>
      have hxi : x ≠ i := fun h => hx (h ▸ by simp)
      simp only [List.map_cons, List.sum_cons, if_neg hxi]
      rw [ih (fun h => hx (by simp [h]))]
      ring

theorem sum_ite_key (ids : List String) (x : String) (a : ℚ)
    (hnd : ids.Nodup) (hx : x ∈ ids) :
    (ids.map (fun i => if x = i then a else 0)).sum = a := by
  induction ids with
  | nil => simp at hx
  | cons i rest ih =>
      obtain ⟨hni, hnd'⟩ := List.nodup_cons.mp hnd
      by_cases hxi : x = i
      · subst hxi
        rw [List.map_cons, List.sum_cons, if_pos rfl, sum_ite_key_zero rest x a hni]
        ring
      · rcases List.mem_cons.mp hx with h | h
        · exact absurd h hxi
        · simp only [List.map_cons, List.sum_cons, if_neg hxi]
          rw [ih hnd' h]
          ring

/-- Transfers partition by debtor: with duplicate-free debtor ids covering
every transfer, per-debtor outflows sum to the total transferred. -/
theorem sum_map_sumFrom (out : List Settlement) (ds : List MatchParty)
    (hnd : (ds.map (·.inboxId)).Nodup)
    (hmem : ∀ s ∈ out, s.fromInboxId ∈ ds.map (·.inboxId)) :
    (ds.map (fun p => sumFrom p.inboxId out)).sum = totalTransferred out := by
  induction out with
  | nil =>
      simp [sumFrom, totalTransferred]
  | cons s rest ih =>
      have hstep : ds.map (fun p => sumFrom p.inboxId (s :: rest)) =
          ds.map (fun p => (if s.fromInboxId = p.inboxId then s.amount else 0) +
            sumFrom p.inboxId rest) := by
        simp [sumFrom]
      rw [hstep, sum_map_add, ih (fun t ht => hmem t (by simp [ht]))]
      have hkey : (ds.map (fun p =>
          if s.fromInboxId = p.inboxId then s.amount else 0)).sum = s.amount := by
        have hcomp : ds.map (fun p =>
            if s.fromInboxId = p.inboxId then s.amount else 0) =
            (ds.map (·.inboxId)).map
              (fun i => if s.fromInboxId = i then s.amount else 0) := by
          simp [List.map_map]
        rw [hcomp, sum_ite_key _ _ _ hnd (hmem s (by simp))]
      rw [hkey]
      simp [totalTransferred]

theorem mem_rawDebtors {balances : List Balance} {p : MatchParty} :
    p ∈ rawDebtors balances ↔
      ∃ b ∈ balances, b.netAmount < -eps ∧
        p = { inboxId := b.inboxId, address := b.address,
              remaining := -b.netAmount } := by
  simp only [rawDebtors, List.mem_map, List.mem_filter, decide_eq_true_eq]
  constructor
  · rintro ⟨b, ⟨hb, hlt⟩, rfl⟩
    exact ⟨b, hb, hlt, rfl⟩
  · rintro ⟨b, hb, hlt, rfl⟩
    exact ⟨b, ⟨hb, hlt⟩, rfl⟩

theorem mem_rawCreditors {balances : List Balance} {p : MatchParty} :
    p ∈ rawCreditors balances ↔
      ∃ b ∈ balances, eps < b.netAmount ∧
        p = { inboxId := b.inboxId, address := b.address,
              remaining := b.netAmount } := by
  simp only [rawCreditors, List.mem_map, List.mem_filter, decide_eq_true_eq]
  constructor
  · rintro ⟨b, ⟨hb, hlt⟩, rfl⟩
    exact ⟨b, hb, hlt, rfl⟩
  · rintro ⟨b, hb, hlt, rfl⟩
    exact ⟨b, ⟨hb, hlt⟩, rfl⟩

theorem mem_debtorsOf {balances : List Balance} {p : MatchParty} :
    p ∈ debtorsOf balances ↔ p ∈ rawDebtors balances :=
  List.Perm.mem_iff (sortByRemainingDesc_perm _)

theorem mem_creditorsOf {balances : List Balance} {p : MatchParty} :
    p ∈ creditorsOf balances ↔ p ∈ rawCreditors balances :=
  List.Perm.mem_iff (sortByRemainingDesc_perm _)

theorem debtorsOf_rem (balances : List Balance) :
    ∀ p ∈ debtorsOf balances, eps < p.remaining := by
  intro p hp
  obtain ⟨b, -, hlt, rfl⟩ := mem_rawDebtors.mp (mem_debtorsOf.mp hp)
  simp only
  linarith

theorem creditorsOf_rem (balances : List Balance) :
    ∀ p ∈ creditorsOf balances, eps < p.remaining := by
  intro p hp
  obtain ⟨b, -, hlt, rfl⟩ := mem_rawCreditors.mp (mem_creditorsOf.mp hp)
  simpa using hlt

theorem rawDebtors_map_inboxId (balances : List Balance) :
    (rawDebtors balances).map (·.inboxId) =
      (balances.filter (fun b => decide (b.netAmount < -eps))).map (·.inboxId) := by
  simp [rawDebtors, List.map_map]

theorem rawCreditors_map_address (balances : List Balance) :
    (rawCreditors balances).map (·.address) =
      (balances.filter (fun b => decide (eps < b.netAmount))).map (·.address) := by
  simp [rawCreditors, List.map_map]

theorem debtorsOf_nodup (balances : List Balance)
    (h : (balances.map (·.inboxId)).Nodup) :
    ((debtorsOf balances).map (·.inboxId)).Nodup := by
  have hperm := (sortByRemainingDesc_perm (rawDebtors balances)).map (·.inboxId)
  simp only [debtorsOf]
  rw [List.Perm.nodup_iff hperm, rawDebtors_map_inboxId]
  exact List.Nodup.sublist (List.Sublist.map _ (List.filter_sublist _)) h

theorem creditorsOf_nodup (balances : List Balance)
    (h : (balances.map (·.address)).Nodup) :
    ((creditorsOf balances).map (·.address)).Nodup := by
  have hperm := (sortByRemainingDesc_perm (rawCreditors balances)).map (·.address)
  simp only [creditorsOf]
  rw [List.Perm.nodup_iff hperm, rawCreditors_map_address]
  exact List.Nodup.sublist (List.Sublist.map _ (List.filter_sublist _)) h

/-- One step of the debtor filter. -/
theorem rawDebtors_cons (b : Balance) (rest : List Balance) :
    rawDebtors (b :: rest) =
      (if b.netAmount < -eps then
        [{ inboxId := b.inboxId, address := b.address, remaining := -b.netAmount }]
       else []) ++ rawDebtors rest := by
  by_cases h : b.netAmount < -eps <;>
    simp [rawDebtors, List.filter_cons, h]

/-- One step of the creditor filter. -/
theorem rawCreditors_cons (b : Balance) (rest : List Balance) :
    rawCreditors (b :: rest) =
      (if eps < b.netAmount then
        [{ inboxId := b.inboxId, address := b.address, remaining := b.netAmount }]
       else []) ++ rawCreditors rest := by
  by_cases h : eps < b.netAmount <;>
    simp [rawCreditors, List.filter_cons, h]

theorem sumRem_append (l₁ l₂ : List MatchParty) :
    sumRem (l₁ ++ l₂) = sumRem l₁ + sumRem l₂ := by
  simp [sumRem]

/-- A balance past the threshold is a debtor or a creditor. -/
theorem big_cases {x : ℚ} (h2 : ¬ eps < x) (h1 : ¬ x < -eps)
    (hb : x = 0 ∨ eps < |x|) : x = 0 := by
  rcases hb with h0 | habs
  · exact h0
  · rcases lt_abs.mp habs with h | h
    · exact absurd h h2
    · exact absurd (by linarith) h1

/-- Total credit minus total debt equals the net sum when every balance is
either zero or past the threshold. -/
theorem sumRem_split (balances : List Balance)
    (h : ∀ b ∈ balances, b.netAmount = 0 ∨ eps < |b.netAmount|) :
    sumRem (rawCreditors balances) - sumRem (rawDebtors balances) =
      (balances.map (·.netAmount)).sum := by
  induction balances with
  | nil => simp [rawDebtors, rawCreditors, sumRem]
  | cons b rest ih =>
      have ih' := ih (fun x hx => h x (by simp [hx]))
      have hb := h b (by simp)
      rw [rawCreditors_cons, rawDebtors_cons, sumRem_append, sumRem_append,
        List.map_cons, List.sum_cons]
      by_cases h1 : b.netAmount < -eps
      · have h2 : ¬ eps < b.netAmount := by have := eps_pos; linarith
        rw [if_pos h1, if_neg h2]
        simp only [sumRem, List.map_cons, List.map_nil, List.sum_cons,
          List.sum_nil] at ih' ⊢
        linarith
      · by_cases h2 : eps < b.netAmount
        · rw [if_pos h2, if_neg h1]
          simp only [sumRem, List.map_cons, List.map_nil, List.sum_cons,
            List.sum_nil] at ih' ⊢
          linarith
        · have h0 : b.netAmount = 0 := big_cases h2 h1 hb
          rw [if_neg h2, if_neg h1]
          simp only [sumRem, List.map_nil, List.sum_nil, h0] at ih' ⊢
          linarith

/-- The total absolute imbalance splits into total debt plus total credit
when every balance is either zero or past the threshold. -/
theorem totalAbs_split (balances : List Balance)
    (h : ∀ b ∈ balances, b.netAmount = 0 ∨ eps < |b.netAmount|) :
    totalAbsImbalance balances =
      sumRem (rawDebtors balances) + sumRem (rawCreditors balances) := by
  induction balances with
  | nil => simp [rawDebtors, rawCreditors, sumRem, totalAbsImbalance]
  | cons b rest ih =>
      have ih' := ih (fun x hx => h x (by simp [hx]))
      have hb := h b (by simp)
      rw [totalAbsImbalance, List.map_cons, List.sum_cons,
        rawCreditors_cons, rawDebtors_cons, sumRem_append, sumRem_append]
      by_cases h1 : b.netAmount < -eps
      · have h2 : ¬ eps < b.netAmount := by have := eps_pos; linarith
        rw [if_pos h1, if_neg h2,
          abs_of_neg (by have := eps_pos; linarith : b.netAmount < 0)]
        simp only [sumRem, List.map_cons, List.map_nil, List.sum_cons,
          List.sum_nil, totalAbsImbalance] at ih' ⊢
        linarith
      · by_cases h2 : eps < b.netAmount
        · rw [if_pos h2, if_neg h1,
            abs_of_pos (by have := eps_pos; linarith : 0 < b.netAmount)]
          simp only [sumRem, List.map_cons, List.map_nil, List.sum_cons,
            List.sum_nil, totalAbsImbalance] at ih' ⊢
          linarith
        · have h0 : b.netAmount = 0 := big_cases h2 h1 hb
          rw [if_neg h2, if_neg h1, h0, abs_zero]
          simp only [sumRem, List.map_nil, List.sum_nil, totalAbsImbalance] at ih' ⊢
          linarith

/-- All-members corollary of the loop accounting, debtor side: when every
work item on both sides is past the threshold, every debtor is left unpaid
by at most `2·eps`. -/
theorem settleLoop_debtor_all (currency : String) (ds cs : List MatchParty)
    (hsum : sumRem ds = sumRem cs)
    (hdALL : ∀ p ∈ ds, eps < p.remaining)
    (hcALL : ∀ p ∈ cs, eps < p.remaining)
    (hndD : (ds.map (·.inboxId)).Nodup)
    (hndC : (cs.map (·.address)).Nodup) :
    ∀ p ∈ ds, 0 ≤ p.remaining - sumFrom p.inboxId (settleLoop currency ds cs) ∧
      p.remaining - sumFrom p.inboxId (settleLoop currency ds cs) ≤ 2 * eps := by
  have hd0 : ∀ p ∈ ds, 0 ≤ p.remaining :=
    fun p hp => le_of_lt (lt_trans eps_pos (hdALL p hp))
  have hc0 : ∀ p ∈ cs, 0 ≤ p.remaining :=
    fun p hp => le_of_lt (lt_trans eps_pos (hcALL p hp))
  obtain ⟨ihH, ihTD, -, -⟩ := settleLoop_bounds currency (ds.length + cs.length)
    ds cs le_rfl hsum hd0 hc0
    (fun p hp => hdALL p (List.mem_of_mem_tail hp))
    (fun p hp => hcALL p (List.mem_of_mem_tail hp))
    hndD hndC
  intro p hp
  obtain ⟨d, ds', rfl⟩ := List.exists_cons_of_ne_nil (List.ne_nil_of_mem hp)
  rcases List.mem_cons.mp hp with h | h
  · subst h
    obtain ⟨hb1, hb2⟩ := ihH p ds' rfl
    have := eps_pos
    have hsl : headSlack cs = 0 := headSlack_eq_zero cs hcALL
    rw [hsl] at hb2
    exact ⟨hb1, by linarith⟩
  · exact ihTD p (by simpa using h)

/-- All-members corollary of the loop accounting, creditor side. -/
theorem settleLoop_creditor_all (currency : String) (ds cs : List MatchParty)
    (hsum : sumRem ds = sumRem cs)
    (hdALL : ∀ p ∈ ds, eps < p.remaining)
    (hcALL : ∀ p ∈ cs, eps < p.remaining)
    (hndD : (ds.map (·.inboxId)).Nodup)
    (hndC : (cs.map (·.address)).Nodup) :
    ∀ p ∈ cs, 0 ≤ p.remaining - sumTo p.address (settleLoop currency ds cs) ∧
      p.remaining - sumTo p.address (settleLoop currency ds cs) ≤ 2 * eps := by
  have hd0 : ∀ p ∈ ds, 0 ≤ p.remaining :=
    fun p hp => le_of_lt (lt_trans eps_pos (hdALL p hp))
  have hc0 : ∀ p ∈ cs, 0 ≤ p.remaining :=
    fun p hp => le_of_lt (lt_trans eps_pos (hcALL p hp))
  obtain ⟨-, -, ihHC, ihTC⟩ := settleLoop_bounds currency (ds.length + cs.length)
    ds cs le_rfl hsum hd0 hc0
    (fun p hp => hdALL p (List.mem_of_mem_tail hp))
    (fun p hp => hcALL p (List.mem_of_mem_tail hp))
    hndD hndC
  intro p hp
  obtain ⟨c, cs', rfl⟩ := List.exists_cons_of_ne_nil (List.ne_nil_of_mem hp)
  rcases List.mem_cons.mp hp with h | h
  · subst h
    obtain ⟨hb1, hb2⟩ := ihHC p cs' rfl
    have := eps_pos
    have hsl : headSlack ds = 0 := headSlack_eq_zero ds hdALL
    rw [hsl] at hb2
    exact ⟨hb1, by linarith⟩
  · exact ihTC p (by simpa using h)

/-- C2 (amended): for balance lists with pairwise-distinct inbox ids and
addresses, in which every entry is either exactly settled (zero) or beyond
the `0.01` threshold, and which sum to zero, applying every transfer of
`optimizeSettlements` leaves every participant within `2 · 0.01` of zero
(the loop may drop up to two sub-threshold dust transfers per
participant). -/
theorem optimizeSettlements_settles (balances : List Balance) (currency : String)
    (hndId : (balances.map (·.inboxId)).Nodup)
    (hndAddr : (balances.map (·.address)).Nodup)
    (hbig : ∀ b ∈ balances, b.netAmount = 0 ∨ eps < |b.netAmount|)
    (hzero : (balances.map (·.netAmount)).sum = 0) :
    ∀ b ∈ balances,
      |settledBalance b (optimizeSettlements balances currency)| ≤ 2 * eps := by
  simp only [optimizeSettlements]
  have hsplit := sumRem_split balances hbig
  have hsorted : sumRem (debtorsOf balances) = sumRem (creditorsOf balances) := by
    simp only [debtorsOf, creditorsOf]
    rw [sumRem_perm _ _ (sortByRemainingDesc_perm (rawDebtors balances)),
      sumRem_perm _ _ (sortByRemainingDesc_perm (rawCreditors balances))]
    linarith [hzero ▸ hsplit]
  have hdALL := debtorsOf_rem balances
  have hcALL := creditorsOf_rem balances
  have hndD := debtorsOf_nodup balances hndId
  have hndC := creditorsOf_nodup balances hndAddr
  have hD := settleLoop_debtor_all currency (debtorsOf balances)
    (creditorsOf balances) hsorted hdALL hcALL hndD hndC
  have hC := settleLoop_creditor_all currency (debtorsOf balances)
    (creditorsOf balances) hsorted hdALL hcALL hndD hndC
  have hmem := settleLoop_mem currency
    ((debtorsOf balances).length + (creditorsOf balances).length)
    (debtorsOf balances) (creditorsOf balances) le_rfl
  intro b hb
  have hFrom0 : ¬ b.netAmount < -eps →
      sumFrom b.inboxId (settleLoop currency (debtorsOf balances)
        (creditorsOf balances)) = 0 := by
    intro hnotd
    apply sumFrom_eq_zero
    intro s hs
    intro heq
    obtain ⟨p, hp, hpid⟩ := List.mem_map.mp (heq ▸ (hmem s hs).1)
    obtain ⟨b', hb', hlt', hpeq⟩ := mem_rawDebtors.mp (mem_debtorsOf.mp hp)
    have hbid : b'.inboxId = b.inboxId := by
      rw [hpeq] at hpid
      simpa using hpid
    have hbb : b' = b := List.inj_on_of_nodup_map hndId hb' hb hbid
    exact hnotd (hbb ▸ hlt')
  have hTo0 : ¬ eps < b.netAmount →
      sumTo b.address (settleLoop currency (debtorsOf balances)
        (creditorsOf balances)) = 0 := by
    intro hnotc
    apply sumTo_eq_zero
    intro s hs
    intro heq
    obtain ⟨p, hp, hpaddr⟩ := List.mem_map.mp (heq ▸ (hmem s hs).2)
    obtain ⟨b', hb', hlt', hpeq⟩ := mem_rawCreditors.mp (mem_creditorsOf.mp hp)
    have hbaddr : b'.address = b.address := by
      rw [hpeq] at hpaddr
      simpa using hpaddr
    have hbb : b' = b := List.inj_on_of_nodup_map hndAddr hb' hb hbaddr
    exact hnotc (hbb ▸ hlt')
  have hepos := eps_pos
  rcases hbig b hb with h0 | habs
  · have hf := hFrom0 (by rw [h0]; linarith)
    have ht := hTo0 (by rw [h0]; linarith)
    rw [settledBalance, hf, ht, h0]
    simp only [add_zero, sub_zero, abs_zero]
    linarith
  · rcases lt_abs.mp habs with hpos | hneg
    · -- creditor
      have hpc : MatchParty.mk b.inboxId b.address b.netAmount ∈
          creditorsOf balances :=
        mem_creditorsOf.mpr (mem_rawCreditors.mpr ⟨b, hb, hpos, rfl⟩)
      obtain ⟨hb1, hb2⟩ := hC _ hpc
      simp only at hb1 hb2
      have hf := hFrom0 (by linarith)
      rw [settledBalance, hf, add_zero, abs_le]
      constructor <;> linarith
    · -- debtor
      have hlt : b.netAmount < -eps := by linarith
      have hpd : MatchParty.mk b.inboxId b.address (-b.netAmount) ∈
          debtorsOf balances :=
        mem_debtorsOf.mpr (mem_rawDebtors.mpr ⟨b, hb, hlt, rfl⟩)
      obtain ⟨hb1, hb2⟩ := hD _ hpd
      simp only at hb1 hb2
      have ht := hTo0 (by linarith)
      rw [settledBalance, ht, sub_zero, abs_le]
      constructor <;> linarith

theorem sum_map_sub {α : Type} (l : List α) (f g : α → ℚ) :
    (l.map (fun a => f a - g a)).sum = (l.map f).sum - (l.map g).sum := by
  induction l with
  | nil => simp
  | cons a rest ih => simp [ih]; ring

/-- The loop emits at most one transfer per work item it retires, and the
last iteration retires two, so at most `|ds| + |cs| - 1` transfers. -/
theorem settleLoop_length (currency : String) :
    ∀ (n : ℕ) (ds cs : List MatchParty), ds.length + cs.length ≤ n →
      (settleLoop currency ds cs).length ≤ ds.length + cs.length - 1 := by
  intro n
  induction n with
  | zero =>
      intro ds cs hlen
      have hds : ds = [] := List.eq_nil_of_length_eq_zero (by omega)
      subst hds
      simp [settleLoop]
  | succ n ih =>
      intro ds cs hlen
      match ds, cs with
      | [], cs => simp [settleLoop]
      | d :: ds', [] => simp [settleLoop]
      | d :: ds', c :: cs' =>
          by_cases hcmp : d.remaining ≤ c.remaining
          · rw [settleLoop_cons_le currency d c ds' cs' hcmp]
            have hrec := ih ds' ({ c with remaining := c.remaining - d.remaining } :: cs')
              (by simp at hlen ⊢; omega)
            rw [List.length_append]
            have hone : (if eps < d.remaining then
                [{ fromInboxId := d.inboxId, fromAddress := d.address,
                   toAddress := c.address, amount := d.remaining,
                   currency := currency }]
               else ([] : List Settlement)).length ≤ 1 := by
              split <;> simp
            simp only [List.length_cons] at hrec ⊢
            omega
          · rw [settleLoop_cons_gt currency d c ds' cs' hcmp]
            have hrec := ih ({ d with remaining := d.remaining - c.remaining } :: ds') cs'
              (by simp at hlen ⊢; omega)
            rw [List.length_append]
            have hone : (if eps < c.remaining then
                [{ fromInboxId := d.inboxId, fromAddress := d.address,
                   toAddress := c.address, amount := c.remaining,
                   currency := currency }]
               else ([] : List Settlement)).length ≤ 1 := by
              split <;> simp
            simp only [List.length_cons] at hrec ⊢
            omega

/-- Debtor and creditor entries are disjoint, so together they never exceed
the number of balance entries. -/
theorem raw_lengths_le (balances : List Balance) :
    (rawDebtors balances).length + (rawCreditors balances).length ≤
      balances.length := by
  induction balances with
  | nil => simp [rawDebtors, rawCreditors]
  | cons b rest ih =>
      rw [rawDebtors_cons, rawCreditors_cons, List.length_append,
        List.length_append, List.length_cons]
      have hd := eps_pos
      by_cases h1 : b.netAmount < -eps
      · have h2 : ¬ eps < b.netAmount := by linarith
        rw [if_pos h1, if_neg h2]
        simp only [List.length_singleton, List.length_nil]
        omega
      · by_cases h2 : eps < b.netAmount
        · rw [if_pos h2, if_neg h1]
          simp only [List.length_singleton, List.length_nil]
          omega
        · rw [if_neg h2, if_neg h1]
          simp only [List.length_nil]
          omega

/-- C9 (amended): for balance entries all beyond the `0.01` threshold and
with pairwise-distinct inbox ids, `optimizeSettlements` returns at most
`n - 1` transfers; and when the balances additionally sum to zero, the sum
of all transfer amounts is within `2 · 0.01 · n` of half the total absolute
imbalance (the exact equality fails because sub-threshold dust transfers
are dropped). -/
theorem optimizeSettlements_count_sum (balances : List Balance) (currency : String)
    (hbig : ∀ b ∈ balances, eps < |b.netAmount|)
    (hndId : (balances.map (·.inboxId)).Nodup)
    (hndAddr : (balances.map (·.address)).Nodup) :
    (optimizeSettlements balances currency).length ≤ balances.length - 1 ∧
    ((balances.map (·.netAmount)).sum = 0 →
      |totalTransferred (optimizeSettlements balances currency) -
        totalAbsImbalance balances / 2| ≤ 2 * eps * balances.length) := by
  have hlenD : (debtorsOf balances).length = (rawDebtors balances).length :=
    (sortByRemainingDesc_perm (rawDebtors balances)).length_eq
  have hlenC : (creditorsOf balances).length = (rawCreditors balances).length :=
    (sortByRemainingDesc_perm (rawCreditors balances)).length_eq
  have hraw := raw_lengths_le balances
  constructor
  · -- transfer count bound
    have hloop := settleLoop_length currency
      ((debtorsOf balances).length + (creditorsOf balances).length)
      (debtorsOf balances) (creditorsOf balances) le_rfl
    simp only [optimizeSettlements]
    omega
  · -- total amount accounting
    intro hzero
    have hbig' : ∀ b ∈ balances, b.netAmount = 0 ∨ eps < |b.netAmount| :=
      fun b hb => Or.inr (hbig b hb)
    have hsplit := sumRem_split balances hbig'
    have habs := totalAbs_split balances hbig'
    have hsortD : sumRem (debtorsOf balances) = sumRem (rawDebtors balances) :=
      sumRem_perm _ _ (sortByRemainingDesc_perm _)
    have hsortC : sumRem (creditorsOf balances) = sumRem (rawCreditors balances) :=
      sumRem_perm _ _ (sortByRemainingDesc_perm _)
    have hsorted : sumRem (debtorsOf balances) = sumRem (creditorsOf balances) := by
      rw [hsortD, hsortC]
      linarith [hzero ▸ hsplit]
    have hdALL := debtorsOf_rem balances
    have hcALL := creditorsOf_rem balances
    have hndD := debtorsOf_nodup balances hndId
    have hmem := settleLoop_mem currency
      ((debtorsOf balances).length + (creditorsOf balances).length)
      (debtorsOf balances) (creditorsOf balances) le_rfl
    have hndC := creditorsOf_nodup balances hndAddr
    have hrem := settleLoop_debtor_all currency (debtorsOf balances)
      (creditorsOf balances) hsorted hdALL hcALL hndD hndC
    have hpart := sum_map_sumFrom
      (settleLoop currency (debtorsOf balances) (creditorsOf balances))
      (debtorsOf balances) hndD (fun s hs => (hmem s hs).1)
    have hsub := sum_map_sub (debtorsOf balances) (fun p => p.remaining)
      (fun p => sumFrom p.inboxId
        (settleLoop currency (debtorsOf balances) (creditorsOf balances)))
    have hub := List.sum_le_card_nsmul
      ((debtorsOf balances).map (fun p => p.remaining - sumFrom p.inboxId
        (settleLoop currency (debtorsOf balances) (creditorsOf balances))))
      (2 * eps)
      (by intro x hx
          obtain ⟨p, hp, rfl⟩ := List.mem_map.mp hx
          exact (hrem p hp).2)
    have hlb := List.sum_nonneg
      (by intro x hx
          obtain ⟨p, hp, rfl⟩ := List.mem_map.mp hx
          exact (hrem p hp).1)
    rw [List.length_map, nsmul_eq_mul] at hub
    rw [hpart] at hsub
    have hDrem : ((debtorsOf balances).map (fun p => p.remaining)).sum =
        sumRem (debtorsOf balances) := rfl
    rw [hDrem] at hsub
    have hhalf : totalAbsImbalance balances / 2 = sumRem (debtorsOf balances) := by
      rw [hsortD]
      have hDC : sumRem (rawDebtors balances) = sumRem (rawCreditors balances) := by
        linarith [hzero ▸ hsplit]
      rw [habs]
      linarith
    have hcast : ((debtorsOf balances).length : ℚ) ≤ (balances.length : ℚ) := by
      have : (debtorsOf balances).length ≤ balances.length := by omega
      exact_mod_cast this
    have hfin : ((debtorsOf balances).length : ℚ) * (2 * eps) ≤
        2 * eps * balances.length := by
      have h2e : (0 : ℚ) ≤ 2 * eps := by linarith [eps_pos]
      calc ((debtorsOf balances).length : ℚ) * (2 * eps)
          ≤ (balances.length : ℚ) * (2 * eps) :=
            mul_le_mul_of_nonneg_right hcast h2e
        _ = 2 * eps * balances.length := by ring
    simp only [optimizeSettlements]
    rw [hhalf, abs_le]
    constructor <;> linarith

theorem c2Cex_eval : optimizeSettlements c2CexBalances "USDC" =
    [{ fromInboxId := "d1", fromAddress := "0xD1", toAddress := "0xC1",
       amount := 10, currency := "USDC" },
     { fromInboxId := "d3", fromAddress := "0xD3", toAddress := "0xC2",
       amount := 3 / 250, currency := "USDC" }] := by
  norm_num [optimizeSettlements, debtorsOf, creditorsOf, rawDebtors,
    rawCreditors, sortByRemainingDesc, insertDesc, settleLoop, eps,
    c2CexBalances, List.filter]

/-- C1 counterexample: the claim as stated (no duplicate-freedom required of
the participant list) fails — one expense of 10 paid by `payer` and split
equally over the list `["alice", "alice"]` satisfies every stated
hypothesis, yet the balance map sums to 5, far beyond the `0.01`
threshold. -/
theorem calculateBalances_dup_cex :
    (0 < c1CexExpense.amount ∧ c1CexExpense.participantInboxIds ≠ [] ∧
      c1CexExpense.weights = none) ∧
    calculateBalances [c1CexExpense] = some [("payer", 10), ("alice", -5)] ∧
    ¬ |sumVals [("payer", 10), ("alice", -5)]| ≤ eps := by
  refine ⟨⟨by norm_num [c1CexExpense], by simp [c1CexExpense], rfl⟩, ?_,
    by norm_num [sumVals, eps]⟩
  norm_num [calculateBalances, calcBalancesFrom, applyExpense, distributeExpense,
    c1CexExpense, msetAll, mset, mgetD, mget, sumVals]
  simp

/-- C1 witness: on the specification's three equal-split expenses plus one
2:1:1 weighted expense, the balances sum to exactly zero. -/
theorem calculateBalances_conservation_witness :
    (calculateBalances wExpenses).map sumVals = some 0 := by
  have hval : ∀ e ∈ wExpenses, ValidExpense e := by
    intro e he
    fin_cases he
    · exact ⟨by norm_num, by simp, fun ws hws => by cases hws⟩
    · exact ⟨by norm_num, by simp, fun ws hws => by cases hws⟩
    · exact ⟨by norm_num, by simp, fun ws hws => by cases hws⟩
    · refine ⟨by norm_num, by simp, ?_⟩
      intro ws hws
      cases Option.some.inj hws
      refine ⟨by simp, ?_⟩
      intro w hw
      fin_cases hw <;> norm_num
  have hnd : ∀ e ∈ wExpenses, e.participantInboxIds.Nodup := by
    intro e he
    fin_cases he <;> simp
  obtain ⟨m, hm, hz, -⟩ := calculateBalances_conservation wExpenses hval hnd
  rw [hm]
  simp [hz]

/-- C2 counterexample: balances that are distinct, all beyond the
threshold, and sum to zero, on which the optimizer's dust rule drops both
transfers of debtor `d2`, leaving `d2` at `-0.015` — outside the claimed
`0.01` bound (though inside `2 · 0.01`). -/
theorem optimizeSettlements_eps_cex :
    ((c2CexBalances.map (·.inboxId)).Nodup ∧
     (c2CexBalances.map (·.address)).Nodup ∧
     (c2CexBalances.map (·.netAmount)).sum = 0) ∧
    ({ inboxId := "d2", address := "0xD2", netAmount := -(3 / 200) } : Balance)
        ∈ c2CexBalances ∧
    ¬ |settledBalance { inboxId := "d2", address := "0xD2", netAmount := -(3 / 200) }
        (optimizeSettlements c2CexBalances "USDC")| ≤ eps := by
  refine ⟨⟨by simp [c2CexBalances], by simp [c2CexBalances],
    by norm_num [c2CexBalances]⟩, by simp [c2CexBalances], ?_⟩
  have hval : settledBalance
      { inboxId := "d2", address := "0xD2", netAmount := -(3 / 200) }
      (optimizeSettlements c2CexBalances "USDC") = -(3 / 200) := by
    rw [c2Cex_eval]
    simp [settledBalance, sumFrom, sumTo]
  rw [hval, abs_of_neg (by norm_num)]
  norm_num [eps]

/-- C2 witness: the amended bound at the specification's scenario balances,
instantiated at participant A. -/
theorem optimizeSettlements_settles_witness :
    |settledBalance { inboxId := "A", address := "0xA", netAmount := 25 }
      (optimizeSettlements wBalances "USDC")| ≤ 2 * eps := by
  have hbig : ∀ b ∈ wBalances, b.netAmount = 0 ∨ eps < |b.netAmount| := by
    intro b hb
    fin_cases hb
    · exact Or.inr (lt_abs.mpr (Or.inl (by norm_num [eps])))
    · exact Or.inr (lt_abs.mpr (Or.inr (by norm_num [eps])))
    · exact Or.inr (lt_abs.mpr (Or.inr (by norm_num [eps])))
  exact optimizeSettlements_settles wBalances "USDC" (by simp [wBalances])
    (by simp [wBalances]) hbig (by norm_num [wBalances]) _ (by simp [wBalances])

/-- C9 witness: on the specification's scenario balances (n = 3), the
optimizer returns at most 2 transfers and their total is within the dust
allowance of half the absolute imbalance. -/
theorem optimizeSettlements_count_sum_witness :
    (optimizeSettlements wBalances "USDC").length ≤ wBalances.length - 1 ∧
    |totalTransferred (optimizeSettlements wBalances "USDC") -
      totalAbsImbalance wBalances / 2| ≤ 2 * eps * wBalances.length := by
  have hbig : ∀ b ∈ wBalances, eps < |b.netAmount| := by
    intro b hb
    fin_cases hb
    · exact lt_abs.mpr (Or.inl (by norm_num [eps]))
    · exact lt_abs.mpr (Or.inr (by norm_num [eps]))
    · exact lt_abs.mpr (Or.inr (by norm_num [eps]))
  have h := optimizeSettlements_count_sum wBalances "USDC" hbig
    (by simp [wBalances]) (by simp [wBalances])
  exact ⟨h.1, h.2 (by norm_num [wBalances])⟩

/-! ## Pending registration amount (C3) -/

/-- C3 (code bug exhibited): for the settlement amount `20` at 6 decimals,
the ERC-20 call encodes 20000000 atomic units, but the pending index is
registered with 200000 — the sender's `/ 100` test hack makes the
registration amount differ from the on-chain amount, so the exact-amount
matcher can never match the confirmation. -/
theorem settlementPendingAmount_bug :
    encodedTransferAmount 20 6 = 20000000 ∧
    registeredPendingAmount 20 6 = 200000 ∧
    registeredPendingAmount 20 6 ≠ encodedTransferAmount 20 6 := by
  have hfl : ⌊(20 : ℚ) * 10 ^ 6 + 1 / 2⌋ = 20000000 := by
    rw [Int.floor_eq_iff]
    norm_num
  have henc : encodedTransferAmount 20 6 = 20000000 := by
    rw [encodedTransferAmount, parseUnits, hfl]
    rfl
  refine ⟨henc, ?_, ?_⟩
  · rw [registeredPendingAmount, parseUnits, hfl]
    rfl
  · rw [registeredPendingAmount, parseUnits, hfl, henc]
    decide

/-! ## Pending-transaction matching (C4, C5) -/

theorem txMatchesB_iff (tx : PendingTx) (toAddress amount : String) :
    txMatchesB tx toAddress amount = true ↔
      (lowerStr tx.toAddress = lowerStr toAddress ∧ tx.amount = amount) := by
  simp [txMatchesB]

/-- With no matching entry, the matcher reports no match and leaves the
list untouched. -/
theorem findAndRemove_none (pending : List PendingTx) (toAddress amount : String)
    (h : ∀ u ∈ pending,
      ¬ (lowerStr u.toAddress = lowerStr toAddress ∧ u.amount = amount)) :
    findAndRemovePendingTransaction pending toAddress amount = (none, pending) := by
  rw [findAndRemovePendingTransaction]
  rw [List.find?_eq_none.mpr]
  intro x hx
  rw [txMatchesB_iff]
  exact h x hx

theorem find?_first_of_prefix {α : Type} (p : α → Bool) (l₁ l₂ : List α) (a : α)
    (h₁ : ∀ u ∈ l₁, p u = false) (ha : p a = true) :
    (l₁ ++ a :: l₂).find? p = some a := by
  induction l₁ with
  | nil => simp [List.find?_cons, ha]
  | cons u rest ih =>
      rw [List.cons_append, List.find?_cons, h₁ u (by simp)]
      exact ih (fun x hx => h₁ x (by simp [hx]))

theorem lremFirst_append (l₁ l₂ : List PendingTx) (tx : PendingTx)
    (h : ∀ u ∈ l₁, u ≠ tx) : lremFirst (l₁ ++ tx :: l₂) tx = l₁ ++ l₂ := by
  induction l₁ with
  | nil => simp [lremFirst]
  | cons u rest ih =>
      rw [List.cons_append, lremFirst, if_neg (h u (by simp)),
        ih (fun x hx => h x (by simp [hx])), List.cons_append]

/-- With the first match isolated, the matcher returns its identifiers and
removes exactly that entry. -/
theorem findAndRemove_found (l₁ l₂ : List PendingTx) (tx : PendingTx)
    (toAddress amount : String)
    (h₁ : ∀ u ∈ l₁,
      ¬ (lowerStr u.toAddress = lowerStr toAddress ∧ u.amount = amount))
    (htx : lowerStr tx.toAddress = lowerStr toAddress ∧ tx.amount = amount) :
    findAndRemovePendingTransaction (l₁ ++ tx :: l₂) toAddress amount =
      (some { groupId := tx.groupId, tabId := tx.tabId,
              settlementId := tx.settlementId,
              settlementTransactionId := tx.settlementTransactionId },
       l₁ ++ l₂) := by
  have hfind : (l₁ ++ tx :: l₂).find? (fun u => txMatchesB u toAddress amount) =
      some tx := by
    apply find?_first_of_prefix
    · intro u hu
      rw [← Bool.not_eq_true, txMatchesB_iff]
      exact h₁ u hu
    · exact (txMatchesB_iff tx toAddress amount).mpr htx
  have hne : ∀ u ∈ l₁, u ≠ tx := by
    intro u hu hEq
    exact h₁ u hu (hEq ▸ htx)
  rw [findAndRemovePendingTransaction, hfind]
  dsimp only
  rw [lremFirst_append l₁ l₂ tx hne]

/-- C5: the matcher returns and removes exactly the first entry in list
order whose address matches case-insensitively and whose atomic amount
string matches exactly; with no matching entry it returns `none` and the
pending list is unchanged. -/
theorem findAndRemovePendingTransaction_first (pending : List PendingTx)
    (toAddress amount : String) :
    ((∀ tx ∈ pending,
        ¬ (lowerStr tx.toAddress = lowerStr toAddress ∧ tx.amount = amount)) ∧
      findAndRemovePendingTransaction pending toAddress amount =
        (none, pending)) ∨
    (∃ l₁ tx l₂, pending = l₁ ++ tx :: l₂ ∧
      (∀ u ∈ l₁,
        ¬ (lowerStr u.toAddress = lowerStr toAddress ∧ u.amount = amount)) ∧
      (lowerStr tx.toAddress = lowerStr toAddress ∧ tx.amount = amount) ∧
      findAndRemovePendingTransaction pending toAddress amount =
        (some { groupId := tx.groupId, tabId := tx.tabId,
                settlementId := tx.settlementId,
                settlementTransactionId := tx.settlementTransactionId },
         l₁ ++ l₂)) := by
  induction pending with
  | nil =>
      left
      exact ⟨by simp, findAndRemove_none [] _ _ (by simp)⟩
  | cons u rest ih =>
      by_cases hu : lowerStr u.toAddress = lowerStr toAddress ∧ u.amount = amount
      · right
        exact ⟨[], u, rest, rfl, by simp, hu,
          findAndRemove_found [] rest u _ _ (by simp) hu⟩
      · rcases ih with ⟨hall, -⟩ | ⟨l₁, tx, l₂, heq, h₁, htx, -⟩
        · left
          have hall' : ∀ tx ∈ u :: rest,
              ¬ (lowerStr tx.toAddress = lowerStr toAddress ∧
                 tx.amount = amount) := by
            intro x hx
            rcases List.mem_cons.mp hx with h | h
            · exact h ▸ hu
            · exact hall x h
          exact ⟨hall', findAndRemove_none _ _ _ hall'⟩
        · right
          refine ⟨u :: l₁, tx, l₂, by rw [heq, List.cons_append], ?_, htx, ?_⟩
          · intro x hx
            rcases List.mem_cons.mp hx with h | h
            · exact h ▸ hu
            · exact h₁ x h
          · have hres := findAndRemove_found (u :: l₁) l₂ tx toAddress amount
              (by intro x hx
                  rcases List.mem_cons.mp hx with h | h
                  · exact h ▸ hu
                  · exact h₁ x h)
              htx
            rw [heq]
            exact hres

/-- C4: once the only entry for a (recipient, amount) pair has been matched
and removed, an identical second call returns `none` and leaves the list
unchanged. -/
theorem findAndRemove_idempotent (l₁ l₂ : List PendingTx) (tx : PendingTx)
    (toAddress amount : String)
    (h₁ : ∀ u ∈ l₁,
      ¬ (lowerStr u.toAddress = lowerStr toAddress ∧ u.amount = amount))
    (htx : lowerStr tx.toAddress = lowerStr toAddress ∧ tx.amount = amount)
    (h₂ : ∀ u ∈ l₂,
      ¬ (lowerStr u.toAddress = lowerStr toAddress ∧ u.amount = amount)) :
    findAndRemovePendingTransaction (l₁ ++ tx :: l₂) toAddress amount =
      (some { groupId := tx.groupId, tabId := tx.tabId,
              settlementId := tx.settlementId,
              settlementTransactionId := tx.settlementTransactionId },
       l₁ ++ l₂) ∧
    findAndRemovePendingTransaction (l₁ ++ l₂) toAddress amount =
      (none, l₁ ++ l₂) :=
  ⟨findAndRemove_found l₁ l₂ tx toAddress amount h₁ htx,
   findAndRemove_none (l₁ ++ l₂) toAddress amount (by
     intro u hu
     rcases List.mem_append.mp hu with h | h
     · exact h₁ u h
     · exact h₂ u h)⟩

/-- C4 witness: with two pending legs of different amounts, observing
(`0xaaa`, `1000`) removes the first leg, and the identical second
observation finds nothing. -/
theorem findAndRemove_idempotent_witness :
    findAndRemovePendingTransaction [c4PendingA, c4PendingB] "0xaaa" "1000" =
      (some { groupId := "g1", tabId := "t1", settlementId := "s1",
              settlementTransactionId := "x1" }, [c4PendingB]) ∧
    findAndRemovePendingTransaction [c4PendingB] "0xaaa" "1000" =
      (none, [c4PendingB]) := by
  have h := findAndRemove_idempotent [] [c4PendingB] c4PendingA "0xaaa" "1000"
    (by simp)
    ⟨rfl, rfl⟩
    (by intro u hu
        simp only [List.mem_singleton] at hu
        subst hu
        intro hcon
        simp [c4PendingB] at hcon)
  simpa [c4PendingA] using h

/-! ## Settlement leg confirmation (C6) -/

theorem confirmFirst_none (txs : List SettlementTransaction)
    (txid txHash : String) (now : ℕ) (h : ∀ t ∈ txs, t.id ≠ txid) :
    confirmFirst txs txid txHash now = none := by
  induction txs with
  | nil => rfl
  | cons t rest ih =>
      rw [confirmFirst, if_neg (h t (by simp)),
        ih (fun x hx => h x (by simp [hx]))]
      rfl

theorem confirmFirst_append (l₁ l₂ : List SettlementTransaction)
    (t : SettlementTransaction) (txid txHash : String) (now : ℕ)
    (h₁ : ∀ u ∈ l₁, u.id ≠ txid) (ht : t.id = txid) :
    confirmFirst (l₁ ++ t :: l₂) txid txHash now =
      some (l₁ ++ confirmTx t txHash now :: l₂) := by
  induction l₁ with
  | nil => simp [confirmFirst, ht]
  | cons u rest ih =>
      rw [List.cons_append, confirmFirst, if_neg (h₁ u (by simp)),
        ih (fun x hx => h₁ x (by simp [hx]))]
      rfl

/-- C6: confirming a settlement leg.  With no current settlement or a
mismatched settlement id the update fails with the settlement-not-found
error; with an unknown leg id it fails with the transaction-not-found
error; otherwise the first leg with the id is marked confirmed, storing
the transaction hash and the confirmation time, and the tab/settlement
status advance: `settled`/`completed` when every leg is now confirmed,
else `settling`/`in_progress` on the first confirmation of a
`settlement_proposed` tab. -/
theorem updateSettlementTransaction_spec (tab : ExpenseTab)
    (sid txid txHash : String) (now : ℕ) :
    (tab.currentSettlement = none →
      updateSettlementTransaction tab sid txid txHash now =
        .error ("Settlement not found: " ++ sid)) ∧
    (∀ cs, tab.currentSettlement = some cs → cs.id ≠ sid →
      updateSettlementTransaction tab sid txid txHash now =
        .error ("Settlement not found: " ++ sid)) ∧
    (∀ cs, tab.currentSettlement = some cs → cs.id = sid →
      (∀ t ∈ cs.transactions, t.id ≠ txid) →
      updateSettlementTransaction tab sid txid txHash now =
        .error ("Transaction not found: " ++ txid)) ∧
    (∀ cs l₁ t l₂, tab.currentSettlement = some cs → cs.id = sid →
      cs.transactions = l₁ ++ t :: l₂ → (∀ u ∈ l₁, u.id ≠ txid) →
      t.id = txid →
      ∃ tab' cs',
        updateSettlementTransaction tab sid txid txHash now = .ok tab' ∧
        tab'.currentSettlement = some cs' ∧
        cs'.transactions = l₁ ++ confirmTx t txHash now :: l₂ ∧
        (((l₁ ++ confirmTx t txHash now :: l₂).countP
            (fun u => u.status == TxStatus.confirmed) =
          (l₁ ++ confirmTx t txHash now :: l₂).length) →
            tab'.status = TabStatus.settled ∧
            cs'.status = SettlementStatus.completed) ∧
        (((l₁ ++ confirmTx t txHash now :: l₂).countP
            (fun u => u.status == TxStatus.confirmed) ≠
          (l₁ ++ confirmTx t txHash now :: l₂).length) →
          ((l₁ ++ confirmTx t txHash now :: l₂).countP
            (fun u => u.status == TxStatus.confirmed) = 1) →
          tab.status = TabStatus.settlement_proposed →
            tab'.status = TabStatus.settling ∧
            cs'.status = SettlementStatus.in_progress)) := by
  refine ⟨?_, ?_, ?_, ?_⟩
  · intro hnone
    rw [updateSettlementTransaction, hnone]
  · intro cs hcs hne
    rw [updateSettlementTransaction, hcs]
    dsimp only
    rw [if_pos hne]
  · intro cs hcs hid hnotx
    rw [updateSettlementTransaction, hcs]
    dsimp only
    rw [if_neg (by simp [hid]), confirmFirst_none cs.transactions txid txHash now hnotx]
  · intro cs l₁ t l₂ hcs hid htxs h₁ ht
    rw [updateSettlementTransaction, hcs]
    dsimp only
    rw [if_neg (by simp [hid]), htxs,
      confirmFirst_append l₁ l₂ t txid txHash now h₁ ht]
    dsimp only
    by_cases hc1 : (l₁ ++ confirmTx t txHash now :: l₂).countP
        (fun u => u.status == TxStatus.confirmed) =
        (l₁ ++ confirmTx t txHash now :: l₂).length
    · rw [if_pos hc1]
      exact ⟨_, _, rfl, rfl, rfl, fun _ => ⟨rfl, rfl⟩, fun hne => absurd hc1 hne⟩
    · rw [if_neg hc1]
      by_cases hc2 : (l₁ ++ confirmTx t txHash now :: l₂).countP
          (fun u => u.status == TxStatus.confirmed) = 1 ∧
          tab.status = TabStatus.settlement_proposed
      · rw [if_pos hc2]
        exact ⟨_, _, rfl, rfl, rfl, fun h => absurd h hc1,
          fun _ _ _ => ⟨rfl, rfl⟩⟩
      · rw [if_neg hc2]
        exact ⟨_, _, rfl, rfl, rfl, fun h => absurd h hc1,
          fun _ h1 hp => absurd ⟨h1, hp⟩ hc2⟩

/-- C6 witness: on the two-leg tab, an unknown leg id fails with the
transaction-not-found error, and confirming the first of the two legs
flips the tab to `settling`. -/
theorem updateSettlementTransaction_witness :
    updateSettlementTransaction c6Tab "s1" "nope" "0xH" 99 =
      Except.error "Transaction not found: nope" ∧
    (updateSettlementTransaction c6Tab "s1" "leg1" "0xH" 99).toOption.map
      (fun tab => tab.status) = some TabStatus.settling := by
  constructor
  · exact (updateSettlementTransaction_spec c6Tab "s1" "nope" "0xH" 99).2.2.1
      c6Settlement rfl rfl
      (by intro t ht
          simp only [c6Settlement] at ht
          fin_cases ht <;> simp [c6Leg1, c6Leg2])
  · obtain ⟨tab', cs', heq, -, -, -, hfirst⟩ :=
      (updateSettlementTransaction_spec c6Tab "s1" "leg1" "0xH" 99).2.2.2
        c6Settlement [] c6Leg1 [c6Leg2] rfl rfl
        (by simp [c6Settlement]) (by simp) rfl
    rw [heq]
    have hcnt : ([] ++ confirmTx c6Leg1 "0xH" 99 :: [c6Leg2]).countP
        (fun u : SettlementTransaction => u.status == TxStatus.confirmed) = 1 := by
      simp [List.countP_cons, List.countP_nil, confirmTx, c6Leg1, c6Leg2]
    have hlen : ([] ++ confirmTx c6Leg1 "0xH" 99 :: [c6Leg2]).length = 2 := rfl
    have hstat := hfirst (by rw [hcnt, hlen]; omega) hcnt rfl
    simp [Except.toOption, hstat.1]

/-! ## Adding an expense and the tab lifecycle (C7) -/

/-- C7: adding an expense to a `settlement_proposed` tab (with a valid
positive amount and a payer that resolves to a tab participant) succeeds
and silently reopens the tab — status `open`, `currentSettlement` cleared,
the new expense appended — while a `settling` or `settled` tab rejects the
expense and is left entirely unchanged. -/
theorem addExpenseAction_spec (tab : ExpenseTab) (amountArg : ℚ)
    (pa description newId : String) (now : ℕ) (payer : Participant) :
    (tab.status = TabStatus.settlement_proposed → 0 < amountArg →
      tab.participants.find? (fun p => p.address == lowerStr pa) = some payer →
      ∃ exp,
        addExpenseAction tab amountArg (some pa) description newId now =
          ({ tab with
             status := TabStatus.«open»
             currentSettlement := none
             expenses := tab.expenses ++ [exp] }, .ok exp)) ∧
    (tab.status = TabStatus.settling ∨ tab.status = TabStatus.settled →
      addExpenseAction tab amountArg (some pa) description newId now =
        (tab, .error "Cannot add expenses - tab is locked")) := by
  constructor
  · intro hstat hpos hfind
    rw [addExpenseAction, if_pos hstat, addExpenseValidate, parseAmount,
      if_neg (not_le.mpr hpos)]
    dsimp only
    rw [hfind]
    dsimp only
    have hmem : payer ∈ tab.participants := List.mem_of_find?_eq_some hfind
    have hne : tab.participants ≠ [] := List.ne_nil_of_mem hmem
    rw [if_neg (by simpa using hne)]
    exact ⟨_, rfl⟩
  · intro hlock
    have hnp : tab.status ≠ TabStatus.settlement_proposed := by
      rcases hlock with h | h <;> rw [h] <;> intro hcon <;> cases hcon
    rw [addExpenseAction, if_neg hnp, if_pos hlock]

/-- C7 witness: on a proposed-settlement tab the add succeeds, reopens the
tab and clears the settlement; on the settled twin it is rejected
unchanged. -/
theorem addExpenseAction_witness :
    (addExpenseAction c7Tab 10 (some "0xA") "beer" "e9" 5).1.status =
      TabStatus.«open» ∧
    (addExpenseAction c7Tab 10 (some "0xA") "beer" "e9" 5).1.currentSettlement =
      none ∧
    (addExpenseAction c7Tab 10 (some "0xA") "beer" "e9" 5).1.expenses.length =
      c7Tab.expenses.length + 1 ∧
    addExpenseAction c7TabSettled 10 (some "0xA") "beer" "e9" 5 =
      (c7TabSettled, .error "Cannot add expenses - tab is locked") := by
  obtain ⟨exp, heq⟩ := (addExpenseAction_spec c7Tab 10 "0xA" "beer" "e9" 5
    { inboxId := "A", address := "0xa" }).1 rfl (by norm_num) (by decide)
  refine ⟨by rw [heq], by rw [heq], by rw [heq]; simp, ?_⟩
  exact (addExpenseAction_spec c7TabSettled 10 "0xA" "beer" "e9" 5
    { inboxId := "A", address := "0xa" }).2 (Or.inr rfl)

/-! ## Proposing a settlement (C8) -/

/-- C8: proposing a settlement on a `settling` or `settled` tab fails with
the corresponding already-settling / already-settled outcome without
touching the tab; proposing with no imbalance (every balance within the
`0.01` threshold) is a no-op success — no settlement record is created and
the tab, its status and its expenses are unchanged (the empty-expense case
reports "nothing to settle" instead of "all settled"). -/
theorem prepareTabSettlement_spec (tab : ExpenseTab) (now : ℕ) (sid : String)
    (txIds : List String) :
    (tab.status = TabStatus.settling →
      prepareTabSettlement tab now sid txIds =
        .ok (tab, SettleOutcome.alreadySettling)) ∧
    (tab.status = TabStatus.settled →
      prepareTabSettlement tab now sid txIds =
        .ok (tab, SettleOutcome.alreadySettled)) ∧
    (∀ balances, tab.status ≠ TabStatus.settling →
      tab.status ≠ TabStatus.settled →
      computeNetBalances tab.expenses = some balances →
      (∀ b ∈ balances, |b.netAmount| ≤ eps) →
      ∃ o, prepareTabSettlement tab now sid txIds = .ok (tab, o) ∧
        (o = SettleOutcome.allSettled ∨ o = SettleOutcome.noExpenses)) := by
  refine ⟨?_, ?_, ?_⟩
  · intro h
    rw [prepareTabSettlement, if_pos h]
  · intro h
    rw [prepareTabSettlement, if_neg (by simp [h]), if_pos h]
  · intro balances hns hnsd hcb hall
    rw [prepareTabSettlement, if_neg hns, if_neg hnsd]
    by_cases hexp : tab.expenses = []
    · rw [if_pos hexp]
      exact ⟨SettleOutcome.noExpenses, rfl, Or.inr rfl⟩
    · rw [if_neg hexp, hcb]
      dsimp only
      have hany : balances.any (fun b => decide (eps < |b.netAmount|)) = false := by
        rw [List.any_eq_false]
        intro b hb
        simp only [decide_eq_true_eq]
        exact not_lt.mpr (hall b hb)
      rw [if_pos (by simp [hany])]
      exact ⟨SettleOutcome.allSettled, rfl, Or.inl rfl⟩

/-- C8 witness: a settling tab is rejected unchanged, and the one-expense
self-paid tab (all balances zero) yields a no-op success leaving the tab
unchanged. -/
theorem prepareTabSettlement_witness :
    prepareTabSettlement c8TabSettling 3 "s8" [] =
      .ok (c8TabSettling, SettleOutcome.alreadySettling) ∧
    (prepareTabSettlement c8Tab 3 "s8" []).toOption.map Prod.fst =
      some c8Tab := by
  constructor
  · exact (prepareTabSettlement_spec c8TabSettling 3 "s8" []).1 rfl
  · have hcb : computeNetBalances c8Tab.expenses =
        some [{ inboxId := "P", address := "0xp", netAmount := 0 }] := by
      norm_num [computeNetBalances, calculateBalances, calcBalancesFrom,
        applyExpense, distributeExpense, msetAll, mset, mgetD, mget,
        lookupAddress, c8Tab, c8Expense]
    obtain ⟨o, heq, -⟩ := (prepareTabSettlement_spec c8Tab 3 "s8" []).2.2
      [{ inboxId := "P", address := "0xp", netAmount := 0 }]
      (by intro h; cases h) (by intro h; cases h) hcb
      (by intro b hb
          simp only [List.mem_singleton] at hb
          subst hb
          norm_num [eps])
    rw [heq]
    rfl

/-! ## Deleting an expense (C10) -/

theorem length_filter_eq_iff {α : Type} (l : List α) (p : α → Bool) :
    (l.filter p).length = l.length ↔ ∀ a ∈ l, p a = true := by
  induction l with
  | nil => simp
  | cons a rest ih =>
      rw [List.filter_cons]
      by_cases h : p a
      · rw [if_pos h]
        simp only [List.length_cons, Nat.add_right_cancel_iff, ih]
        constructor
        · intro hall x hx
          rcases List.mem_cons.mp hx with hx | hx
          · exact hx ▸ h
          · exact hall x hx
        · intro hall x hx
          exact hall x (by simp [hx])
      · rw [if_neg h]
        simp only [List.length_cons]
        constructor
        · intro hlen
          have hle := List.length_filter_le p rest
          omega
        · intro hall
          exact absurd (hall a (by simp)) (by simp [h])

/-- C10: when the tab holds an expense with the id, `deleteExpense` removes
exactly the expenses with that id — the surviving expenses keep their
order — and every other field of the tab is written back unchanged; when
no expense has the id, it throws and nothing is written. -/
theorem deleteExpense_spec (tab : ExpenseTab) (eid : String) :
    ((∃ e ∈ tab.expenses, e.id = eid) →
      ∃ tab', deleteExpense tab eid = .ok tab' ∧
        tab'.expenses = tab.expenses.filter (fun e => decide (e.id ≠ eid)) ∧
        tab'.id = tab.id ∧ tab'.name = tab.name ∧ tab'.groupId = tab.groupId ∧
        tab'.participants = tab.participants ∧
        tab'.createdAt = tab.createdAt ∧ tab'.currency = tab.currency ∧
        tab'.status = tab.status ∧
        tab'.currentSettlement = tab.currentSettlement) ∧
    ((∀ e ∈ tab.expenses, e.id ≠ eid) →
      deleteExpense tab eid = .error ("Expense not found: " ++ eid)) := by
  constructor
  · rintro ⟨e, he, hid⟩
    have hne : ¬ (tab.expenses.filter (fun x => decide (x.id ≠ eid))).length =
        tab.expenses.length := by
      rw [length_filter_eq_iff]
      intro hall
      have := hall e he
      simp [hid] at this
    rw [deleteExpense]
    rw [if_neg hne]
    exact ⟨_, rfl, rfl, rfl, rfl, rfl, rfl, rfl, rfl, rfl, rfl⟩
  · intro hall
    have heq : (tab.expenses.filter (fun x => decide (x.id ≠ eid))).length =
        tab.expenses.length := by
      rw [length_filter_eq_iff]
      intro a ha
      exact decide_eq_true (hall a ha)
    rw [deleteExpense]
    rw [if_pos heq]

/-- C10 witness: deleting `e1` from the two-expense tab leaves exactly
`e2`; deleting a missing id fails with the not-found error. -/
theorem deleteExpense_witness :
    (deleteExpense c10Tab "e1").toOption.map (fun t => t.expenses) =
      some [c10Exp2] ∧
    deleteExpense c10Tab "zzz" = .error "Expense not found: zzz" := by
  constructor
  · obtain ⟨tab', heq, hexp, -⟩ := (deleteExpense_spec c10Tab "e1").1
      ⟨c10Exp1, by simp [c10Tab], rfl⟩
    rw [heq]
    simp only [Except.toOption]
    rw [Option.map]
    rw [hexp]
    simp [c10Tab, c10Exp1, c10Exp2]
  · exact (deleteExpense_spec c10Tab "zzz").2
      (by intro e he
          simp only [c10Tab] at he
          fin_cases he <;> simp [c10Exp1, c10Exp2])

/-- C9 counterexample: both entries are beyond the threshold (5 and 10
exceed `0.01`), yet the single returned transfer moves 5 while half the
total absolute imbalance is 7.5 — the claimed equality fails whenever the
balances do not sum to zero (and, by `optimizeSettlements_eps_cex`-style
dust drops, even zero-sum inputs only reach it approximately). -/
theorem optimizeSettlements_sum_cex :
    eps < |(-5 : ℚ)| ∧ eps < |(10 : ℚ)| ∧
    (optimizeSettlements c9CexBalances "USDC").length ≤
      c9CexBalances.length - 1 ∧
    totalTransferred (optimizeSettlements c9CexBalances "USDC") = 5 ∧
    totalAbsImbalance c9CexBalances / 2 = 15 / 2 ∧
    totalTransferred (optimizeSettlements c9CexBalances "USDC") ≠
      totalAbsImbalance c9CexBalances / 2 := by
  have heval : optimizeSettlements c9CexBalances "USDC" =
      [{ fromInboxId := "a", fromAddress := "0xA", toAddress := "0xB",
         amount := 5, currency := "USDC" }] := by
    norm_num [optimizeSettlements, debtorsOf, creditorsOf, rawDebtors,
      rawCreditors, sortByRemainingDesc, insertDesc, settleLoop, eps,
      c9CexBalances, List.filter]
  have habs1 : |(-5 : ℚ)| = 5 := by
    rw [abs_of_neg (by norm_num)]
    norm_num
  have habs2 : |(10 : ℚ)| = 10 := abs_of_pos (by norm_num)
  have htot : totalAbsImbalance c9CexBalances / 2 = 15 / 2 := by
    rw [totalAbsImbalance, c9CexBalances]
    simp only [List.map_cons, List.map_nil, List.sum_cons, List.sum_nil]
    rw [habs1, habs2]
    norm_num
  refine ⟨by rw [habs1]; norm_num [eps], by rw [habs2]; norm_num [eps],
    ?_, ?_, htot, ?_⟩
  · rw [heval]
    simp [c9CexBalances]
  · rw [heval]
    norm_num [totalTransferred]
  · rw [heval, htot]
    norm_num [totalTransferred]

end SafeSplit

